import Mathlib

/-!
Verification of the LAPP log-ingest pipeline (github.com/STRRL/lapp).

This file gives a shallow embedding, in Lean 4, of the parts of the Go
source that the checked properties talk about:

* `pkg/multiline/merger.go` — the multiline merger, in its two delivery
  modes (`Merge` over a channel of read results, `MergeSlice` over a
  slice).  Go strings are byte strings; a line's `len` is modelled by
  `String.utf8ByteSize`.  The merger consults its detector only through
  `IsNewEntry` and `MaxEntryBytes`, so both functions are parameterised
  by the boolean predicate and the byte bound.
* `pkg/pattern/parser.go` — Drain-style tokenisation and `MatchTemplate`.
  A `uuid.UUID` is modelled by its string form; the zero UUID by `""`.
* `pkg/multiline/tokenizer.go`, `token.go`, `tokengraph.go`,
  `detector.go` — the byte-class tokenizer, the timestamp token graph,
  the modified Kadane sweep and the entry-boundary detector.  Bytes are
  modelled as `Nat` (all Go byte values are < 256); `float64` division
  of the two small integers `maxSum` and `end - start` is modelled
  exactly in `ℚ`.  A compiled `regexp.Regexp` is modelled by its
  `MatchString` function.
* `cmd/lapp/ingest.go` / `cmd/lapp/pipeline.go` — round 2 of the
  orchestrator (`storeLogsWithLabels`); the DuckDB batches of 500 are
  concatenated, so the store receives exactly the produced entry list.
* `pkg/store/duckdb.go` — the `PatternSummaries` query, over an abstract
  table state; the JSON `labels` column holds the serialisation of a
  string-to-string map, modelled as an association list.
* the semantic labeler's `parseResponse` (source shown in
  `src/README.md`, matching `pkg/labeler/labeler_test.go`), with a model
  of `encoding/json`'s `Unmarshal` into `[]SemanticLabel`.
-/

namespace GoStrings

/-- Go `unicode.IsSpace` on the characters that occur in log tokens:
ASCII whitespace plus NEL and NBSP.  (The wider Unicode space classes
are omitted; nothing here depends on them.) -/
def goIsSpace (c : Char) : Bool :=
  c == ' ' || c == '\t' || c == '\n' || c == '\x0b' || c == '\x0c' || c == '\r' ||
  c.toNat == 133 || c.toNat == 160

/-- Go `strings.TrimSpace` on a character list. -/
def trimChars (cs : List Char) : List Char :=
  ((cs.dropWhile goIsSpace).reverse.dropWhile goIsSpace).reverse

/-- Go `strings.TrimSpace`. -/
def trimString (s : String) : String :=
  String.mk (trimChars s.data)

/-- Go `strings.Split(s, " ")` on a character list: split at every
single space, keeping empty fields (`Split("", " ")` is `[""]`). -/
def splitOnSpace : List Char → List Char → List (List Char)
  | [], acc => [acc.reverse]
  | c :: rest, acc =>
    if c == ' ' then acc.reverse :: splitOnSpace rest [] else splitOnSpace rest (c :: acc)

end GoStrings

namespace Multiline

/-- One logical log entry that may span multiple physical lines
(`multiline.MergedLine`). -/
structure MergedLine where
  startLine : Nat
  endLine : Nat
  content : String
deriving Repr, DecidableEq

/-- A physical line from the source reader (`ingestor.LogLine`). -/
structure LogLine where
  lineNumber : Nat
  content : String
deriving Repr, DecidableEq

/-- `multiline.MergeResult`: either a merged line or a read error. -/
inductive MergeResult (ε : Type) where
  | value (ml : MergedLine)
  | error (e : ε)
deriving Repr, DecidableEq

/-- The merger's loop state: flushed output so far, the buffer of
physical lines of the current entry, its line range, the byte size of
the buffered content, and the sticky detection flag. -/
structure MergeState where
  result : List MergedLine
  buf : List String
  startLine : Nat
  endLine : Nat
  bufBytes : Nat
  everDetected : Bool
deriving Repr

/-- The state both merger loops start from. -/
def initState : MergeState := ⟨[], [], 0, 0, 0, false⟩

/-- Go `strings.Join`. -/
def join (sep : String) : List String → String
  | [] => ""
  | [x] => x
  | x :: xs => x ++ sep ++ join sep xs

/-- The merger's `flush` closure: emit the buffered entry (if any) and
clear the buffer.  Both Go versions join the buffered lines with
`"\n"`. -/
def flushState (s : MergeState) : MergeState :=
  if s.buf.isEmpty then s
  else { s with
    result := s.result ++ [⟨s.startLine, s.endLine, join "\n" s.buf⟩],
    buf := [], bufBytes := 0 }

/-- The detection-driven flush decisions of the merger loop body
(merger.go, both versions share this text): sticky `everDetected`, the
line-by-line fallback flush, and the new-entry flush. -/
def mergePrefix (isNew : String → Bool) (s0 : MergeState) (line : String) : MergeState :=
  let isN := isNew line
  let s1 := if isN then { s0 with everDetected := true } else s0
  let s2 := if !s1.everDetected && !s1.buf.isEmpty then flushState s1 else s1
  if isN && !s2.buf.isEmpty then flushState s2 else s2

/-- The overflow flush: the would-be size counts one byte for the
`"\n"` separator when the buffer is non-empty, and a non-empty buffer
that would exceed the bound is flushed before the append. -/
def guardFlush (maxEntryBytes : Nat) (s3 : MergeState) (line : String) : MergeState :=
  let newSize := s3.bufBytes + line.utf8ByteSize + (if s3.buf.isEmpty then 0 else 1)
  if maxEntryBytes < newSize && !s3.buf.isEmpty then flushState s3 else s3

/-- The flush decisions of `MergeSlice`'s loop body for one line:
detection flushes, then the overflow flush. -/
def mergeFlushPhase (isNew : String → Bool) (maxEntryBytes : Nat)
    (s0 : MergeState) (line : String) : MergeState :=
  guardFlush maxEntryBytes (mergePrefix isNew s0 line) line

/-- The append of `MergeSlice`'s loop body: start a fresh entry when
the buffer is empty, else extend it.  Go computes `newSize` before the
overflow check; when the buffer survives to this point no flush fired,
so recomputing it from the surviving state yields the same value (and
after a flush Go overwrites `bufBytes` with `len(line)` without reading
`newSize`). -/
def mergeAppendPhase (s4 : MergeState) (lineNum : Nat) (line : String) : MergeState :=
  let newSize := s4.bufBytes + line.utf8ByteSize + (if s4.buf.isEmpty then 0 else 1)
  let s5 :=
    if s4.buf.isEmpty then { s4 with startLine := lineNum, bufBytes := line.utf8ByteSize }
    else { s4 with bufBytes := newSize }
  { s5 with endLine := lineNum, buf := s5.buf ++ [line] }

/-- The tail of the streaming loop body from the overflow check on,
with `newSize` computed once and reused, exactly as the Go text reads. -/
def chanTail (maxEntryBytes : Nat) (s3 : MergeState) (lineNum : Nat) (line : String) :
    MergeState :=
  let newSize := s3.bufBytes + line.utf8ByteSize + (if s3.buf.isEmpty then 0 else 1)
  let s4 := if maxEntryBytes < newSize && !s3.buf.isEmpty then flushState s3 else s3
  let s5 :=
    if s4.buf.isEmpty then { s4 with startLine := lineNum, bufBytes := line.utf8ByteSize }
    else { s4 with bufBytes := newSize }
  { s5 with endLine := lineNum, buf := s5.buf ++ [line] }

/-- The body of `MergeSlice`'s `for` loop for one line: the flush
decisions followed by the append. -/
def mergeStepSlice (isNew : String → Bool) (maxEntryBytes : Nat)
    (s0 : MergeState) (lineNum : Nat) (line : String) : MergeState :=
  mergeAppendPhase (mergeFlushPhase isNew maxEntryBytes s0 line) lineNum line

/-- `MergeSlice`'s loop over the remaining lines, carrying the 1-based
line number of the next line. -/
def mergeRunSlice (isNew : String → Bool) (maxEntryBytes : Nat) :
    List String → Nat → MergeState → MergeState
  | [], _, s => s
  | l :: ls, n, s =>
      mergeRunSlice isNew maxEntryBytes ls (n + 1) (mergeStepSlice isNew maxEntryBytes s n l)

/-- `multiline.MergeSlice`: merge a slice of lines into logical entries;
`nil` input returns `nil`, and the remainder is flushed at the end. -/
def MergeSlice (isNew : String → Bool) (maxEntryBytes : Nat)
    (lines : List String) : List MergedLine :=
  if lines.isEmpty then []
  else (flushState (mergeRunSlice isNew maxEntryBytes lines 1 initState)).result

/-- The body of the streaming `Merge`'s `for` loop for one non-error
read result (merger.go, channel version).  It is transcribed from that
version's own source text; the claim that it coincides with the slice
version's body is proved, not assumed. -/
def mergeStepChan (isNew : String → Bool) (maxEntryBytes : Nat)
    (s0 : MergeState) (lineNum : Nat) (line : String) : MergeState :=
  let isN := isNew line
  let s1 := if isN then { s0 with everDetected := true } else s0
  let s2 := if !s1.everDetected && !s1.buf.isEmpty then flushState s1 else s1
  let s3 := if isN && !s2.buf.isEmpty then flushState s2 else s2
  let newSize := s3.bufBytes + line.utf8ByteSize + (if s3.buf.isEmpty then 0 else 1)
  let s4 := if maxEntryBytes < newSize && !s3.buf.isEmpty then flushState s3 else s3
  let s5 :=
    if s4.buf.isEmpty then { s4 with startLine := lineNum, bufBytes := line.utf8ByteSize }
    else { s4 with bufBytes := newSize }
  { s5 with endLine := lineNum, buf := s5.buf ++ [line] }

/-- The streaming `Merge`'s loop: a read error is forwarded and the
goroutine returns without flushing; on channel close the remainder is
flushed.  The returned list is the sequence sent on the output
channel. -/
def mergeRunChan (isNew : String → Bool) (maxEntryBytes : Nat) {ε : Type} :
    List (Except ε LogLine) → MergeState → List (MergeResult ε)
  | [], s => ((flushState s).result).map MergeResult.value
  | (Except.error e) :: _, s => s.result.map MergeResult.value ++ [MergeResult.error e]
  | (Except.ok line) :: rest, s =>
      mergeRunChan isNew maxEntryBytes rest
        (mergeStepChan isNew maxEntryBytes s line.lineNumber line.content)

/-- `multiline.Merge` (channel version), as the full sequence of values
it sends on its output channel for a given input sequence. -/
def Merge (isNew : String → Bool) (maxEntryBytes : Nat) {ε : Type}
    (input : List (Except ε LogLine)) : List (MergeResult ε) :=
  mergeRunChan isNew maxEntryBytes input initState

end Multiline

namespace Pattern

/-- `pattern.extraDelimiters`: the extra token boundaries, matching the
Drain parser's configuration. -/
def extraDelimiters : List String := ["|", "=", ","]

/-- `pattern.tokenize`: replace every extra delimiter with a space
(each delimiter is a single byte, so the three sequential
`strings.ReplaceAll` calls amount to one character map), trim the ends,
split on single spaces (Go `strings.Split`, which keeps empty
fields). -/
def tokenize (s : String) : List String :=
  let replaced := s.data.map fun c => if c == '|' || c == '=' || c == ',' then ' ' else c
  (GoStrings.splitOnSpace (GoStrings.trimChars replaced) []).map String.mk

/-- `pattern.DrainCluster`: a discovered template.  The `uuid.UUID` is
modelled by its string form. -/
structure DrainCluster where
  id : String
  pattern : String
  count : Nat
deriving Repr, DecidableEq

/-- The Go zero value `DrainCluster{}` (the zero UUID modelled as `""`). -/
def zeroCluster : DrainCluster := ⟨"", "", 0⟩

/-- `pattern.matchTokens`: equal length, and at each position the
template token is the literal `"<*>"` or equals the line token. -/
def matchTokens : List String → List String → Bool
  | [], [] => true
  | lt :: ls, pt :: ps => (pt == "<*>" || pt == lt) && matchTokens ls ps
  | _, _ => false

/-- The loop of `pattern.MatchTemplate` over the candidate templates. -/
def matchTemplateLoop (lineTokens : List String) :
    List DrainCluster → DrainCluster × Bool
  | [] => (zeroCluster, false)
  | t :: ts =>
      if matchTokens lineTokens (tokenize t.pattern) then (t, true)
      else matchTemplateLoop lineTokens ts

/-- `pattern.MatchTemplate`: the first template in input order whose
tokenised pattern matches the tokenised line, or the zero value. -/
def MatchTemplate (line : String) (templates : List DrainCluster) :
    DrainCluster × Bool :=
  matchTemplateLoop (tokenize line) templates

end Pattern

namespace Multiline

/-- `multiline.Token` (token.go): a small closed alphabet, modelled by
its numeric value. -/
abbrev Token := Nat

def tSpace : Token := 0
def tColon : Token := 1
def tSemicolon : Token := 2
def tDash : Token := 3
def tUnderscore : Token := 4
def tFslash : Token := 5
def tBslash : Token := 6
def tPeriod : Token := 7
def tComma : Token := 8
def tSinglequote : Token := 9
def tDoublequote : Token := 10
def tBacktick : Token := 11
def tTilda : Token := 12
def tStar : Token := 13
def tPlus : Token := 14
def tEqual : Token := 15
def tParenopen : Token := 16
def tParenclose : Token := 17
def tBraceopen : Token := 18
def tBraceclose : Token := 19
def tBracketopen : Token := 20
def tBracketclose : Token := 21
def tAmpersand : Token := 22
def tExclamation : Token := 23
def tAt : Token := 24
def tPound : Token := 25
def tDollar : Token := 26
def tPercent : Token := 27
def tUparrow : Token := 28
def tD1 : Token := 29
def tD10 : Token := 38
def tC1 : Token := 39
def tC10 : Token := 48
def tMonth : Token := 49
def tDay : Token := 50
def tApm : Token := 51
def tZone : Token := 52
def tT : Token := 53
def tEnd : Token := 54

/-- `maxRun` (tokenizer.go): run lengths and the capture buffer are
capped at 10. -/
def maxRun : Nat := 10

/-- `makeTokenLookup`: byte class of a byte.  Digits map to `tD1`,
whitespace to `tSpace`, the listed punctuation to its class, and every
other byte (letters included) defaults to `tC1`. -/
def tokenLookup (b : Nat) : Token :=
  if 48 ≤ b && b ≤ 57 then tD1
  else if b == 32 || b == 9 || b == 10 || b == 13 then tSpace
  else if b == 58 then tColon
  else if b == 59 then tSemicolon
  else if b == 45 then tDash
  else if b == 95 then tUnderscore
  else if b == 47 then tFslash
  else if b == 92 then tBslash
  else if b == 46 then tPeriod
  else if b == 44 then tComma
  else if b == 39 then tSinglequote
  else if b == 34 then tDoublequote
  else if b == 96 then tBacktick
  else if b == 126 then tTilda
  else if b == 42 then tStar
  else if b == 43 then tPlus
  else if b == 61 then tEqual
  else if b == 40 then tParenopen
  else if b == 41 then tParenclose
  else if b == 123 then tBraceopen
  else if b == 125 then tBraceclose
  else if b == 91 then tBracketopen
  else if b == 93 then tBracketclose
  else if b == 38 then tAmpersand
  else if b == 33 then tExclamation
  else if b == 64 then tAt
  else if b == 35 then tPound
  else if b == 36 then tDollar
  else if b == 37 then tPercent
  else if b == 94 then tUparrow
  else tC1

/-- `makeToUpperLookup`: ASCII uppercasing of a byte. -/
def byteToUpper (b : Nat) : Nat :=
  if 97 ≤ b && b ≤ 122 then b - 32 else b

/-- The byte sequence of an ASCII string (every character below 128
occupies one byte in a Go string). -/
def bytesOfAscii (s : String) : List Nat := s.data.map Char.toNat

/-- `getSpecialShortToken`: a single captured (uppercased) `T` or `Z`. -/
def getSpecialShortToken (b : Nat) : Token :=
  if b == 84 then tT else if b == 90 then tZone else tEnd

/-- `getSpecialLongToken`: month, weekday, AM/PM and timezone names,
looked up on the uppercased capture of a 2–4 letter run. -/
def getSpecialLongToken (l : List Nat) : Token :=
  if l.length == 2 then
    if l == bytesOfAscii "AM" || l == bytesOfAscii "PM" then tApm else tEnd
  else if l.length == 3 then
    if ([bytesOfAscii "JAN", bytesOfAscii "FEB", bytesOfAscii "MAR", bytesOfAscii "APR",
         bytesOfAscii "MAY", bytesOfAscii "JUN", bytesOfAscii "JUL", bytesOfAscii "AUG",
         bytesOfAscii "SEP", bytesOfAscii "OCT", bytesOfAscii "NOV", bytesOfAscii "DEC"]).contains l
    then tMonth
    else if ([bytesOfAscii "MON", bytesOfAscii "TUE", bytesOfAscii "WED", bytesOfAscii "THU",
              bytesOfAscii "FRI", bytesOfAscii "SAT", bytesOfAscii "SUN"]).contains l
    then tDay
    else if ([bytesOfAscii "UTC", bytesOfAscii "GMT", bytesOfAscii "EST", bytesOfAscii "EDT",
              bytesOfAscii "CST", bytesOfAscii "CDT", bytesOfAscii "MST", bytesOfAscii "MDT",
              bytesOfAscii "PST", bytesOfAscii "PDT", bytesOfAscii "JST", bytesOfAscii "KST",
              bytesOfAscii "IST", bytesOfAscii "MSK", bytesOfAscii "CET", bytesOfAscii "BST",
              bytesOfAscii "HST", bytesOfAscii "HDT", bytesOfAscii "NST", bytesOfAscii "NDT"]).contains l
    then tZone
    else tEnd
  else if l.length == 4 then
    if ([bytesOfAscii "CEST", bytesOfAscii "NZST", bytesOfAscii "NZDT", bytesOfAscii "ACST",
         bytesOfAscii "ACDT", bytesOfAscii "AEST", bytesOfAscii "AEDT", bytesOfAscii "AWST",
         bytesOfAscii "AWDT", bytesOfAscii "AKST", bytesOfAscii "AKDT", bytesOfAscii "CHST",
         bytesOfAscii "CHDT"]).contains l
    then tZone
    else tEnd
  else tEnd

/-- `tokenizer.emitToken`, restricted to the emitted token (the parallel
index list is not used by the detector or the graph).  `run` is Go's run
counter (run length minus one); `strBuf` is the captured, uppercased
prefix (at most `maxRun` bytes) of the current `tC1` run. -/
def emitTok (lastToken : Token) (run : Nat) (strBuf : List Nat) : Token :=
  let special :=
    if lastToken == tC1 && decide (1 ≤ strBuf.length) && decide (strBuf.length ≤ 4) then
      if strBuf.length == 1 then getSpecialShortToken (strBuf.headD 0)
      else getSpecialLongToken strBuf
    else tEnd
  if special != tEnd then special
  else if lastToken == tC1 || lastToken == tD1 then lastToken + min run (maxRun - 1)
  else lastToken

/-- The tokenizer's loop from the second byte on, carrying the current
byte class, the run counter, and the capture buffer. -/
def tokenizeAux : List Nat → Token → Nat → List Nat → List Token
  | [], lastToken, run, strBuf => [emitTok lastToken run strBuf]
  | c :: rest, lastToken, run, strBuf =>
    let cur := tokenLookup c
    if cur != lastToken then
      let strBuf' := if cur == tC1 then [byteToUpper c] else []
      emitTok lastToken run strBuf :: tokenizeAux rest cur 0 strBuf'
    else
      let strBuf' :=
        if cur == tC1 && decide (strBuf.length < maxRun) then strBuf ++ [byteToUpper c]
        else strBuf
      tokenizeAux rest cur (run + 1) strBuf'

/-- `tokenizer.tokenize` on a byte sequence.  The Go method mutates a
reusable buffer and also returns byte indices; neither affects the token
sequence, which is what the graph and the detector consume. -/
def tokenize (input : List Nat) : List Token :=
  match input with
  | [] => []
  | c :: rest =>
    let lastToken := tokenLookup c
    tokenizeAux rest lastToken 0 (if lastToken == tC1 then [byteToUpper c] else [])

/-- `multiline.tokenGraph`: the adjacency rows (one per token value,
`[]` standing for a Go `nil` row) and the minimum token length. -/
structure TokenGraph where
  adjacencies : List (List Bool)
  minimumTokenLength : Nat
deriving Repr

/-- The inner loop of `tokenGraph.add` over the tail of a token
sequence: allocate the row on first use, set the transition bit. -/
def addPairs : List (List Bool) → Token → List Token → List (List Bool)
  | adj, _, [] => adj
  | adj, lastToken, t :: rest =>
    let row := adj.getD lastToken []
    let row := if row.isEmpty then List.replicate tEnd false else row
    addPairs (adj.set lastToken (row.set t true)) t rest

/-- `tokenGraph.add` records every adjacent pair of `ts` (the Go method
indexes `ts[0]` and is only called on non-empty tokenisations; an empty
sequence is a no-op here). -/
def graphAdd (adj : List (List Bool)) (ts : List Token) : List (List Bool) :=
  match ts with
  | [] => adj
  | t :: rest => addPairs adj t rest

/-- `newTokenGraph`: start from `tEnd` nil rows and add every input
sequence. -/
def newTokenGraph (minimumTokenLength : Nat) (inputData : List (List Token)) : TokenGraph :=
  ⟨inputData.foldl graphAdd (List.replicate tEnd []), minimumTokenLength⟩

/-- The graph lookup inside `matchProbability`'s `matchForIndex`:
`len(m.adjacencies[a]) > 0 && m.adjacencies[a][b]`. -/
def hasTransition (g : TokenGraph) (a b : Token) : Bool :=
  let row := g.adjacencies.getD a []
  !row.isEmpty && row.getD b false

/-- The credit sequence of `matchProbability`: one `+1`/`-1` per
adjacent pair of the input.  Go realises it through the stateful closure
`matchForIndex`, which `maxSubsequence` calls once per index in
increasing order, so its `lastToken` state always holds `ts[idx]`. -/
def credits (g : TokenGraph) (ts : List Token) : List Int :=
  (List.range (ts.length - 1)).map fun i =>
    if hasTransition g (ts.getD i 0) (ts.getD (i + 1) 0) then 1 else -1

/-- `matchContext`: probability (exact value of the `float64` quotient
of the two small integers, in `ℚ`) and the selected half-open index
range.  Go's `end` field is named `stop` (`end` is a Lean keyword). -/
structure MatchContext where
  probability : ℚ
  start : Nat
  stop : Nat
deriving Repr, DecidableEq

/-- The loop of `maxSubsequence` from index 1 on, carrying
`(maxSum, currentSum, start, end, tempStart)`; Go's restart condition
`v > currentSum+v` is `currentSum + v < v`. -/
def kadaneLoop : List Int → Nat → Int → Int → Nat → Nat → Nat → Int × Nat × Nat
  | [], _, maxSum, _, start, endI, _ => (maxSum, start, endI)
  | v :: rest, i, maxSum, currentSum, start, endI, tempStart =>
    let p := if currentSum + v < v then (v, i) else (currentSum + v, tempStart)
    let q := if maxSum < p.1 then (p.1, p.2, i) else (maxSum, start, endI)
    kadaneLoop rest (i + 1) q.1 p.1 q.2.1 q.2.2 p.2

/-- `maxSubsequence` over the credit list (`length == 0` maps to the
empty list): the modified Kadane sweep, the final `end++`, and the
average `maxSum / (end - start)`. -/
def maxSubsequence (vals : List Int) : ℚ × Nat × Nat :=
  match vals with
  | [] => (0, 0, 0)
  | v0 :: rest =>
    let r := kadaneLoop rest 1 v0 v0 0 0 0
    let e := r.2.2 + 1
    ((r.1 : ℚ) / ((e - r.2.1 : Nat) : ℚ), r.2.1, e)

/-- `tokenGraph.matchProbability`: zero on short input, run the sweep on
the credits, zero when the selected run is shorter than the minimum,
else the average with the run's bounds. -/
def matchProbability (g : TokenGraph) (ts : List Token) : MatchContext :=
  if ts.length < g.minimumTokenLength then ⟨0, 0, 0⟩
  else
    let r := maxSubsequence (credits g ts)
    if r.2.2 - r.2.1 < g.minimumTokenLength then ⟨0, 0, 0⟩
    else ⟨r.1, r.2.1, r.2.2⟩

/-- `knownTimestampFormats` (detector.go): the ≈70 known timestamp
format strings the static token graph is built from. -/
def knownTimestampFormats : List String :=
  ["2024-03-28T13:45:30.123456Z",
   "28/Mar/2024:13:45:30",
   "Sun, 28 Mar 2024 13:45:30",
   "2024-03-28 13:45:30",
   "2024-03-28 13:45:30,123",
   "02 Jan 06 15:04 MST",
   "2024-03-28T14:33:53.743350Z",
   "2024-03-28T15:19:38.578639+00:00",
   "2024-03-28 15:44:53",
   "2024-08-20'T'13:20:10*633+0000",
   "2024 Mar 03 05:12:41.211 PDT",
   "Jan 21 18:20:11 +0000 2024",
   "19/Apr/2024:06:36:15",
   "Dec 2, 2024 2:39:58 AM",
   "Jun 09 2024 15:28:14",
   "Apr 20 00:00:35 2010",
   "Sep 28 19:00:00 +0000",
   "Mar 16 08:12:04",
   "Jul 1 09:00:55",
   "2024-10-14T22:11:20+0000",
   "2024-07-01T14:59:55.711",
   "2024-07-01T14:59:55.711Z",
   "2024-08-19 12:17:55-0400",
   "2024-06-26 02:31:29,573",
   "2024/04/12*19:37:50",
   "2024 Apr 13 22:08:13.211*PDT",
   "2024 Mar 10 01:44:20.392",
   "2024-03-10 14:30:12,655+0000",
   "2024-02-27 15:35:20.311",
   "2024-07-22'T'16:28:55.444",
   "2024-11-22'T'10:10:15.455",
   "2024-02-11'T'18:31:44",
   "2024-10-30*02:47:33:899",
   "2024-07-04*13:23:55",
   "24-02-11 16:47:35,985 +0000",
   "24-06-26 02:31:29,573",
   "24-04-19 12:00:17",
   "06/01/24 04:11:05",
   "08/10/24*13:33:56",
   "11/24/2024*05:13:11",
   "05/09/2024*08:22:14*612",
   "04/23/24 04:34:22 +0000",
   "2024/04/25 14:57:42",
   "11:42:35.173",
   "11:42:35,173",
   "23/Apr 11:42:35,173",
   "23/Apr/2024:11:42:35",
   "23/Apr/2024 11:42:35",
   "23-Apr-2024 11:42:35",
   "23-Apr-2024 11:42:35.883",
   "23 Apr 2024 11:42:35",
   "23 Apr 2024 10:32:35*311",
   "8/5/2024 3:31:18 AM:234",
   "9/28/2024 2:23:15 PM",
   "2023-03.28T14-33:53-7430Z",
   "2017-05-16_13:53:08",
   ]

/-- `minimumTokenLength` (detector.go). -/
def minimumTokenLength : Nat := 8

/-- `makeStaticTokenGraph`: tokenise every known format (the formats
are ASCII and shorter than the 100-byte tokenizer bound, so no
truncation applies) and build the graph. -/
def staticTokenGraph : TokenGraph :=
  newTokenGraph minimumTokenLength (knownTimestampFormats.map fun f => tokenize (bytesOfAscii f))

/-- `multiline.DetectorConfig`.  A compiled first-line regex is modelled
by its `MatchString` predicate over the line's bytes; `none` stands for
the empty `FirstLineRegex` string.  The numeric fields are the Go ints,
all of which are non-negative in every use. -/
structure DetectorConfig where
  maxScanBytes : Nat := 0
  threshold : ℚ := 0
  firstLineRegex : Option (List Nat → Bool) := none
  maxEntryBytes : Nat := 0

/-- `multiline.Detector`. -/
structure Detector where
  tokenGraph : TokenGraph
  threshold : ℚ
  firstLineRegex : Option (List Nat → Bool)
  maxScanBytes : Nat
  maxEntryBytes : Nat

/-- `DetectorConfig.defaults`: zero values become 60, 0.5 and 65536. -/
def DetectorConfig.defaults (c : DetectorConfig) : DetectorConfig :=
  { c with
    maxScanBytes := if c.maxScanBytes = 0 then 60 else c.maxScanBytes,
    threshold := if c.threshold = 0 then 1 / 2 else c.threshold,
    maxEntryBytes := if c.maxEntryBytes = 0 then 65536 else c.maxEntryBytes }

/-- `multiline.NewDetector` (regex compilation, which can only fail for
an invalid pattern, is behind the matcher model): apply the defaults and
attach the static token graph. -/
def NewDetector (cfg : DetectorConfig) : Detector :=
  let cfg := cfg.defaults
  ⟨staticTokenGraph, cfg.threshold, cfg.firstLineRegex, cfg.maxScanBytes, cfg.maxEntryBytes⟩

/-- `Detector.IsNewEntry` over the line's bytes: delegate to the
first-line regex when configured; otherwise scan at most
`maxScanBytes` bytes, return `false` for an empty scan, else compare
the match probability against the threshold (strictly). -/
def IsNewEntry (d : Detector) (line : List Nat) : Bool :=
  match d.firstLineRegex with
  | some re => re line
  | none =>
    let scanLen := min line.length d.maxScanBytes
    if scanLen = 0 then false
    else decide (d.threshold < (matchProbability d.tokenGraph (tokenize (line.take scanLen))).probability)

end Multiline

namespace Store

/-- A row of the `log_entries` table.  The JSON `labels` column holds
the serialisation of a Go `map[string]string`, modelled as an
association list (`marshalLabels` writes the empty object for a nil
map); the wall-clock timestamp column is irrelevant to every query
modelled here and is carried as an opaque integer. -/
structure LogRow where
  id : Int
  lineNumber : Int
  endLineNumber : Int
  timestamp : Int
  raw : String
  labels : List (String × String)
deriving Repr, DecidableEq

/-- A row of the `patterns` table; every column except the primary key
`pattern_id` is nullable. -/
structure PatternRow where
  patternId : String
  patternType : Option String
  rawPattern : Option String
  semanticId : Option String
  description : Option String
deriving Repr, DecidableEq

/-- The store's table state.  `pattern_id` is the primary key of
`patterns`, so in every reachable state its rows have distinct ids;
none of the statements below needs that invariant. -/
structure StoreState where
  logEntries : List LogRow
  patterns : List PatternRow
deriving Repr

/-- `store.PatternSummary`. -/
structure PatternSummary where
  patternId : String
  pattern : String
  count : Nat
  patternType : String
  semanticId : String
  description : String
deriving Repr, DecidableEq

/-- `json_extract_string(labels, '$.pattern')` on a stored labels
object: the value of the `"pattern"` key, SQL `NULL` when absent. -/
def jsonExtractPattern (labels : List (String × String)) : Option String :=
  (labels.find? (fun kv => kv.1 == "pattern")).map (·.2)

/-- The join predicate of the `PatternSummaries` query:
`json_extract_string(le.labels, '$.pattern') = p.semantic_id`, with SQL
three-valued equality (a `NULL` on either side never matches). -/
def summariesJoin (le : LogRow) (p : PatternRow) : Bool :=
  match jsonExtractPattern le.labels, p.semanticId with
  | some a, some b => a == b
  | _, _ => false

/-- `ORDER BY cnt DESC`, as a sort by descending count (ties are left
in an arbitrary order by the database, and no statement below depends
on tie order). -/
def sortByCountDesc (l : List PatternSummary) : List PatternSummary :=
  List.insertionSort (fun a b => b.count ≤ a.count) l

/-- The grouped row the query emits for a pattern row matched by `cnt`
join rows: `COALESCE` maps the nullable columns to `''`. -/
def summaryOfPattern (p : PatternRow) (cnt : Nat) : PatternSummary :=
  ⟨p.patternId, p.rawPattern.getD "", cnt, p.patternType.getD "",
   p.semanticId.getD "", p.description.getD ""⟩

/-- `DuckDBStore.PatternSummaries` (duckdb.go 187–213): inner-join
`log_entries` to `patterns` on `labels.pattern = semantic_id`, group by
the pattern row (its `pattern_id` is the primary key, so each row is
its own group and the group's `COUNT(*)` is its number of matching
entries; the inner join drops patterns with no matching entry), order
by count descending. -/
def patternSummaries (st : StoreState) : List PatternSummary :=
  sortByCountDesc <| st.patterns.filterMap fun p =>
    let cnt := (st.logEntries.filter fun le => summariesJoin le p).length
    if cnt = 0 then none else some (summaryOfPattern p cnt)

/-- `json_extract_string(labels, '$.pattern_id')`: the value of the
`"pattern_id"` key of a stored labels object. -/
def jsonExtractPatternId (labels : List (String × String)) : Option String :=
  (labels.find? (fun kv => kv.1 == "pattern_id")).map (·.2)

/-- Modelled from the spec's words for comparison with the code (the
spec and claim C1 say the join is `labels.pattern_id ==
patterns.pattern_id`): the same grouped, count-ordered query with that
join condition in place of the one the SQL uses. -/
def patternSummariesSpecJoin (st : StoreState) : List PatternSummary :=
  sortByCountDesc <| st.patterns.filterMap fun p =>
    let cnt := (st.logEntries.filter fun le =>
      match jsonExtractPatternId le.labels with
      | some a => a == p.patternId
      | none => false).length
    if cnt = 0 then none else some (summaryOfPattern p cnt)

end Store

namespace Pipeline

/-- The entry `storeLogsWithLabels` builds and persists for one merged
line (ingest.go 335–376): the start line as `line_number`, the end
line, the raw content, and the labels map — `{pattern: semantic_id,
pattern_id: uuid}` when the matcher returned a template AND the
semantic-id map knows its UUID, the nil map otherwise.  The wall-clock
`time.Now()` timestamp is irrelevant here and carried as `0`. -/
def entryForLine (templates : List Pattern.DrainCluster)
    (semanticIDMap : List (String × String)) (ml : Multiline.MergedLine) : Store.LogRow :=
  let base : Store.LogRow := ⟨0, ml.startLine, ml.endLine, 0, ml.content, []⟩
  let r := Pattern.MatchTemplate ml.content templates
  if r.2 then
    match (semanticIDMap.find? (fun kv => kv.1 == r.1.id)).map (·.2) with
    | some sid => { base with labels := [("pattern", sid), ("pattern_id", r.1.id)] }
    | none => base
  else base

/-- `storeLogsWithLabels`, as the list of entries it hands to the store:
the batches of 500 are inserted in order and concatenate to exactly
this list. -/
def storeLogsWithLabels (mergedLines : List Multiline.MergedLine)
    (templates : List Pattern.DrainCluster)
    (semanticIDMap : List (String × String)) : List Store.LogRow :=
  mergedLines.map (entryForLine templates semanticIDMap)

end Pipeline

namespace Semantic

/-- A JSON value, as `encoding/json` sees it.  A number's value is
never read by the label decoder, so its raw text is kept. -/
inductive Json where
  | null
  | bool (b : Bool)
  | num (raw : String)
  | str (s : String)
  | arr (elems : List Json)
  | obj (fields : List (String × Json))
deriving Repr

/-- JSON insignificant whitespace. -/
def isJsonWs (c : Char) : Bool :=
  c == ' ' || c == '\t' || c == '\n' || c == '\r'

/-- Skip insignificant whitespace. -/
def skipWs : List Char → List Char
  | c :: rest => if isJsonWs c then skipWs rest else c :: rest
  | [] => []

/-- The value of a hexadecimal digit. -/
def hexDigitVal (c : Char) : Option Nat :=
  if '0' ≤ c && c ≤ '9' then some (c.toNat - 48)
  else if 'a' ≤ c && c ≤ 'f' then some (c.toNat - 87)
  else if 'A' ≤ c && c ≤ 'F' then some (c.toNat - 55)
  else none

/-- Decode one string escape; `none` on an invalid escape.  A `\u`
escape decodes its four hex digits (an unpaired surrogate is decoded
leniently; `encoding/json` substitutes U+FFFD, a corner no statement
below touches). -/
def decodeEscape : List Char → Option (Char × List Char)
  | '"' :: rest => some ('"', rest)
  | '\\' :: rest => some ('\\', rest)
  | '/' :: rest => some ('/', rest)
  | 'b' :: rest => some ('\x08', rest)
  | 'f' :: rest => some ('\x0c', rest)
  | 'n' :: rest => some ('\n', rest)
  | 'r' :: rest => some ('\r', rest)
  | 't' :: rest => some ('\t', rest)
  | 'u' :: h1 :: h2 :: h3 :: h4 :: rest =>
    match hexDigitVal h1, hexDigitVal h2, hexDigitVal h3, hexDigitVal h4 with
    | some v1, some v2, some v3, some v4 =>
      some (Char.ofNat (((v1 * 16 + v2) * 16 + v3) * 16 + v4), rest)
    | _, _, _, _ => none
  | _ => none

/-- Parse the body of a JSON string after the opening quote (fuel is
the remaining input length), accumulating decoded characters in
reverse; unescaped control characters are invalid. -/
def parseStringBody : Nat → List Char → List Char → Option (String × List Char)
  | 0, _, _ => none
  | _ + 1, _, [] => none
  | fuel + 1, acc, c :: rest =>
    if c == '"' then some (String.mk acc.reverse, rest)
    else if c == '\\' then
      match decodeEscape rest with
      | some (e, rest) => parseStringBody fuel (e :: acc) rest
      | none => none
    else if c.toNat < 32 then none
    else parseStringBody fuel (c :: acc) rest

/-- Consume a run of decimal digits. -/
def takeDigits : List Char → List Char × List Char
  | [] => ([], [])
  | c :: rest =>
    if c.isDigit then
      let p := takeDigits rest
      (c :: p.1, p.2)
    else ([], c :: rest)

/-- Parse a JSON number (`-? digits (.digits)? ([eE][+-]?digits)?`),
returning its raw text. -/
def parseNumber (cs : List Char) : Option (String × List Char) :=
  let (neg, cs1) := match cs with
    | '-' :: rest => (['-'], rest)
    | _ => (([] : List Char), cs)
  let (intPart, cs2) := takeDigits cs1
  if intPart.isEmpty then none
  else
    let (fracPart, cs3) := match cs2 with
      | '.' :: rest =>
        let p := takeDigits rest
        if p.1.isEmpty then (([] : List Char), cs2) else ('.' :: p.1, p.2)
      | _ => ([], cs2)
    let (expPart, cs4) := match cs3 with
      | e :: rest =>
        if e == 'e' || e == 'E' then
          let (sgn, rest2) := match rest with
            | '+' :: r => (['+'], r)
            | '-' :: r => (['-'], r)
            | _ => (([] : List Char), rest)
          let p := takeDigits rest2
          if p.1.isEmpty then (([] : List Char), cs3) else (e :: (sgn ++ p.1), p.2)
        else ([], cs3)
      | [] => ([], cs3)
    some (String.mk (neg ++ intPart ++ fracPart ++ expPart), cs4)

mutual

/-- Parse one JSON value at the head of the input (no leading
whitespace); fuel bounds the recursion depth. -/
def parseValue : Nat → List Char → Option (Json × List Char)
  | 0, _ => none
  | fuel + 1, cs =>
    match cs with
    | 'n' :: 'u' :: 'l' :: 'l' :: rest => some (Json.null, rest)
    | 't' :: 'r' :: 'u' :: 'e' :: rest => some (Json.bool true, rest)
    | 'f' :: 'a' :: 'l' :: 's' :: 'e' :: rest => some (Json.bool false, rest)
    | '"' :: rest =>
      match parseStringBody (rest.length + 1) [] rest with
      | some (s, rest) => some (Json.str s, rest)
      | none => none
    | '[' :: rest =>
      match skipWs rest with
      | ']' :: rest => some (Json.arr [], rest)
      | cs => parseArrayElems fuel cs []
    | '{' :: rest =>
      match skipWs rest with
      | '}' :: rest => some (Json.obj [], rest)
      | cs => parseObjFields fuel cs []
    | _ =>
      match parseNumber cs with
      | some (raw, rest) => some (Json.num raw, rest)
      | none => none

/-- Parse the elements of a non-empty array, positioned at an element;
accumulates in reverse. -/
def parseArrayElems : Nat → List Char → List Json → Option (Json × List Char)
  | 0, _, _ => none
  | fuel + 1, cs, acc =>
    match parseValue fuel cs with
    | some (j, rest) =>
      match skipWs rest with
      | ',' :: rest => parseArrayElems fuel (skipWs rest) (j :: acc)
      | ']' :: rest => some (Json.arr (j :: acc).reverse, rest)
      | _ => none
    | none => none

/-- Parse the members of a non-empty object, positioned at a key;
accumulates in reverse. -/
def parseObjFields : Nat → List Char → List (String × Json) → Option (Json × List Char)
  | 0, _, _ => none
  | fuel + 1, cs, acc =>
    match cs with
    | '"' :: rest =>
      match parseStringBody (rest.length + 1) [] rest with
      | some (k, rest) =>
        match skipWs rest with
        | ':' :: rest =>
          match parseValue fuel (skipWs rest) with
          | some (v, rest) =>
            match skipWs rest with
            | ',' :: rest => parseObjFields fuel (skipWs rest) ((k, v) :: acc)
            | '}' :: rest => some (Json.obj ((k, v) :: acc).reverse, rest)
            | _ => none
          | none => none
        | _ => none
      | none => none
    | _ => none

end

/-- Parse a whole string as one JSON value: leading and trailing
whitespace allowed, anything else after the value is an error (as
`json.Unmarshal` behaves). -/
def parseJson (s : String) : Option Json :=
  let cs := skipWs s.data
  match parseValue (cs.length + 1) cs with
  | some (j, rest) => if (skipWs rest).isEmpty then some j else none
  | none => none

/-- `SemanticLabel` (the labeler's output row; Go field
`PatternUUIDString` carries the json tag `pattern_id`). -/
structure SemanticLabel where
  patternId : String
  semanticId : String
  description : String
deriving Repr, DecidableEq

/-- The zero value of `SemanticLabel`. -/
def zeroLabel : SemanticLabel := ⟨"", "", ""⟩

/-- ASCII lowercasing of a string (the json tags are ASCII, so Go's
Unicode `EqualFold` fallback reduces to this on them). -/
def asciiLower (s : String) : String :=
  String.mk (s.data.map fun c => if 'A' ≤ c && c ≤ 'Z' then Char.ofNat (c.toNat + 32) else c)

/-- Whether an object key selects a struct field with the given json
tag: `encoding/json` prefers the exact key and falls back to a
case-insensitive match. -/
def keySelects (k target : String) : Bool :=
  k == target || asciiLower k == target

/-- Assign one object member to the struct: a matching key must hold a
string (JSON `null` leaves the field); keys matching no field are
ignored; a matching key of any other type is a type error. -/
def applyField (l : SemanticLabel) (kv : String × Json) : Option SemanticLabel :=
  let assign := fun (upd : String → SemanticLabel) =>
    match kv.2 with
    | Json.str s => some (upd s)
    | Json.null => some l
    | _ => none
  if keySelects kv.1 "pattern_id" then assign (fun s => { l with patternId := s })
  else if keySelects kv.1 "semantic_id" then assign (fun s => { l with semanticId := s })
  else if keySelects kv.1 "description" then assign (fun s => { l with description := s })
  else some l

/-- Unmarshal one array element into a `SemanticLabel`: an object's
members are applied in order (a later duplicate key overwrites), JSON
`null` leaves the zero value, anything else is a type error. -/
def decodeLabel (j : Json) : Option SemanticLabel :=
  match j with
  | Json.obj fields => fields.foldlM applyField zeroLabel
  | Json.null => some zeroLabel
  | _ => none

/-- Unmarshal a JSON value into `[]SemanticLabel`: an array decodes
elementwise, and JSON `null` sets the slice to nil without error (Go
`encoding/json`'s documented behaviour for slices); any other value is
a type error. -/
def decodeLabels (j : Json) : Option (List SemanticLabel) :=
  match j with
  | Json.arr es => es.mapM decodeLabel
  | Json.null => some []
  | _ => none

/-- `parseResponse` (the labeler's response parser, source shown in
src/README.md 208–216 and exercised by pkg/labeler/labeler_test.go):
trim the content, then unmarshal it directly — there is no
fence-stripping step.  The Go error value carries a content excerpt;
only its presence matters here. -/
def parseResponse (content : String) : Except String (List SemanticLabel) :=
  match parseJson (GoStrings.trimString content) with
  | some j =>
    match decodeLabels j with
    | some ls => Except.ok ls
    | none => Except.error "JSON decode"
  | none => Except.error "JSON decode"

end Semantic


/-! ## Spec-side definitions and proof-side helpers -/

/-- Modelled from the spec's words, for comparison with
`Pattern.matchTokens`: the template's tokenisation has the same token
count as the line's and agrees at every position either literally or
via the wildcard token `<*>`. -/
def matchesTemplateSpec (line : String) (t : Pattern.DrainCluster) : Prop :=
  (Pattern.tokenize t.pattern).length = (Pattern.tokenize line).length ∧
  ∀ i, i < (Pattern.tokenize t.pattern).length →
    (Pattern.tokenize t.pattern).getD i "" = "<*>" ∨
    (Pattern.tokenize t.pattern).getD i "" = (Pattern.tokenize line).getD i ""

instance (line : String) (t : Pattern.DrainCluster) : Decidable (matchesTemplateSpec line t) := by
  unfold matchesTemplateSpec
  exact instDecidableAnd

instance : IsTotal Store.PatternSummary (fun a b => b.count ≤ a.count) :=
  ⟨fun a b => Nat.le_total b.count a.count⟩

instance : IsTrans Store.PatternSummary (fun a b => b.count ≤ a.count) :=
  ⟨fun _ _ _ hab hbc => Nat.le_trans hbc hab⟩

/-- The read-result sequence that feeds the streaming `Merge` for a
given line list: every line wrapped in `ok`, numbered from `n` upward
(the source reader numbers lines from 1). -/
def okLinesFrom (ε : Type) (n : Nat) : List String → List (Except ε Multiline.LogLine)
  | [] => []
  | l :: ls => Except.ok ⟨n, l⟩ :: okLinesFrom ε (n + 1) ls

/-- `covers a es b`: the entries `es` are consecutive line ranges that
tile the interval `a..b` exactly (empty exactly when `b + 1 = a`). -/
def covers : Nat → List Multiline.MergedLine → Nat → Prop
  | a, [], b => b + 1 = a
  | a, e :: es, b => e.startLine = a ∧ a ≤ e.endLine ∧ covers (e.endLine + 1) es b

/-- The merger loop invariant after `m` lines have been consumed:
flushed entries tile `1..m` up to the live buffer, whose range ends at
`m`; the byte ledger `bufBytes` is the joined buffer's byte length,
bounded by `maxB` as soon as the buffer holds at least two lines; and
every flushed entry is a single physical line or within the bound. -/
def mergeInv (maxB m : Nat) (s : Multiline.MergeState) : Prop :=
  (s.buf = [] → covers 1 s.result m) ∧
  (s.buf ≠ [] →
    1 ≤ s.startLine ∧ s.startLine ≤ m ∧ s.endLine = m ∧
    covers 1 s.result (s.startLine - 1) ∧
    s.buf.length = m + 1 - s.startLine ∧
    s.bufBytes = (Multiline.join "\n" s.buf).utf8ByteSize ∧
    (2 ≤ s.buf.length → s.bufBytes ≤ maxB)) ∧
  (∀ e ∈ s.result, e.startLine = e.endLine ∨ e.content.utf8ByteSize ≤ maxB)

/-- The sum of the half-open credit window `[a, b)`. -/
def windowSum (cs : List Int) (a b : Nat) : Int :=
  ((cs.drop a).take (b - a)).sum

/-- A small token graph built by `newTokenGraph` from two training
sequences: its transitions are exactly `tC1 → tC1` and `tD1 → tC1`. -/
def c7Graph : Multiline.TokenGraph :=
  Multiline.newTokenGraph Multiline.minimumTokenLength
    [[Multiline.tC1, Multiline.tC1, Multiline.tC1], [Multiline.tD1, Multiline.tC1]]

/-- An 11-token input whose credit sequence against `c7Graph` is
`[1, 1, 1, 1, 1, -1, 1, 1, 1, 1]`. -/
def c7Tokens : List Multiline.Token :=
  [Multiline.tC1, Multiline.tC1, Multiline.tC1, Multiline.tC1, Multiline.tC1, Multiline.tC1,
   Multiline.tD1, Multiline.tC1, Multiline.tC1, Multiline.tC1, Multiline.tC1]

/-- What `matchProbability` actually computes: the two zero-probability
guards (input shorter than `minimumTokenLength`; selected run shorter
than `minimumTokenLength`), and otherwise a window `[start, stop)` of
the credit list whose SUM is maximal among all non-empty windows, with
`probability = windowSum / (stop - start)`. -/
def kadaneSelectionProp (g : Multiline.TokenGraph) (ts : List Multiline.Token) : Prop :=
  (ts.length < g.minimumTokenLength → Multiline.matchProbability g ts = ⟨0, 0, 0⟩) ∧
  (g.minimumTokenLength ≤ ts.length →
    ((Multiline.maxSubsequence (Multiline.credits g ts)).2.2 -
        (Multiline.maxSubsequence (Multiline.credits g ts)).2.1 < g.minimumTokenLength →
      Multiline.matchProbability g ts = ⟨0, 0, 0⟩) ∧
    (g.minimumTokenLength ≤
        (Multiline.maxSubsequence (Multiline.credits g ts)).2.2 -
          (Multiline.maxSubsequence (Multiline.credits g ts)).2.1 →
      (Multiline.matchProbability g ts).start < (Multiline.matchProbability g ts).stop ∧
      (Multiline.matchProbability g ts).stop ≤ (Multiline.credits g ts).length ∧
      (Multiline.matchProbability g ts).probability =
        (windowSum (Multiline.credits g ts) (Multiline.matchProbability g ts).start
            (Multiline.matchProbability g ts).stop : ℚ) /
          (((Multiline.matchProbability g ts).stop -
              (Multiline.matchProbability g ts).start : Nat) : ℚ) ∧
      ∀ s e, s < e → e ≤ (Multiline.credits g ts).length →
        windowSum (Multiline.credits g ts) s e ≤
          windowSum (Multiline.credits g ts) (Multiline.matchProbability g ts).start
            (Multiline.matchProbability g ts).stop))

/-- Safety of `matchProbability`: when the input passes the minimum
length check, the sweep returns `stop > start` (so the Go `float64`
division `maxSum / (end - start)` has a positive denominator), and the
returned probability always lies in `[-1, 1]`. -/
def matchProbabilityBoundsProp (g : Multiline.TokenGraph) (ts : List Multiline.Token) : Prop :=
  (g.minimumTokenLength ≤ ts.length →
    (Multiline.maxSubsequence (Multiline.credits g ts)).2.1 <
      (Multiline.maxSubsequence (Multiline.credits g ts)).2.2) ∧
  -1 ≤ (Multiline.matchProbability g ts).probability ∧
  (Multiline.matchProbability g ts).probability ≤ 1

/-! ## Theorems -/

theorem matchTokens_iff (lts pts : List String) :
    Pattern.matchTokens lts pts = true ↔
      (pts.length = lts.length ∧
        ∀ i, i < pts.length → pts.getD i "" = "<*>" ∨ pts.getD i "" = lts.getD i "") := by
  induction lts generalizing pts with
  | nil =>
    cases pts with
    | nil => simp [Pattern.matchTokens]
    | cons p ps => simp [Pattern.matchTokens]
  | cons lt ls ih =>
    cases pts with
    | nil => simp [Pattern.matchTokens]
    | cons pt ps =>
      simp only [Pattern.matchTokens, Bool.and_eq_true, Bool.or_eq_true, beq_iff_eq, ih,
        List.length_cons]
      constructor
      · rintro ⟨h0, hlen, hrest⟩
        refine ⟨by omega, ?_⟩
        intro i hi
        cases i with
        | zero => simpa using h0
        | succ j => simpa using hrest j (by omega)
      · rintro ⟨hlen, hall⟩
        refine ⟨by simpa using hall 0 (by omega), by omega, ?_⟩
        intro j hj
        simpa using hall (j + 1) (by omega)

theorem matchTokens_spec_iff (line : String) (t : Pattern.DrainCluster) :
    Pattern.matchTokens (Pattern.tokenize line) (Pattern.tokenize t.pattern) = true ↔
      matchesTemplateSpec line t :=
  matchTokens_iff (Pattern.tokenize line) (Pattern.tokenize t.pattern)

theorem matchTemplateLoop_false (lts : List String) (ts : List Pattern.DrainCluster)
    (h : (Pattern.matchTemplateLoop lts ts).2 = false) :
    Pattern.matchTemplateLoop lts ts = (Pattern.zeroCluster, false) ∧
      ∀ t ∈ ts, ¬ Pattern.matchTokens lts (Pattern.tokenize t.pattern) = true := by
  induction ts with
  | nil => simp [Pattern.matchTemplateLoop]
  | cons t rest ih =>
    by_cases hm : Pattern.matchTokens lts (Pattern.tokenize t.pattern) = true
    · simp [Pattern.matchTemplateLoop, hm] at h
    · have h' : (Pattern.matchTemplateLoop lts rest).2 = false := by
        simpa [Pattern.matchTemplateLoop, hm] using h
      obtain ⟨he, hall⟩ := ih h'
      refine ⟨by simpa [Pattern.matchTemplateLoop, hm] using he, ?_⟩
      intro u hu
      rcases List.mem_cons.mp hu with rfl | hu'
      · exact hm
      · exact hall u hu'

theorem matchTemplateLoop_true (lts : List String) (ts : List Pattern.DrainCluster)
    (t : Pattern.DrainCluster) (h : Pattern.matchTemplateLoop lts ts = (t, true)) :
    ∃ i, ∃ hi : i < ts.length,
      ts.get ⟨i, hi⟩ = t ∧ Pattern.matchTokens lts (Pattern.tokenize t.pattern) = true ∧
      ∀ j (hj : j < i),
        ¬ Pattern.matchTokens lts (Pattern.tokenize (ts.get ⟨j, Nat.lt_trans hj hi⟩).pattern) = true := by
  induction ts with
  | nil => simp [Pattern.matchTemplateLoop] at h
  | cons u rest ih =>
    by_cases hm : Pattern.matchTokens lts (Pattern.tokenize u.pattern) = true
    · have : u = t := by simpa [Pattern.matchTemplateLoop, hm] using congrArg Prod.fst h
      subst this
      exact ⟨0, by simp, rfl, hm, fun j hj => by omega⟩
    · have h' : Pattern.matchTemplateLoop lts rest = (t, true) := by
        simpa [Pattern.matchTemplateLoop, hm] using h
      obtain ⟨i, hi, hget, hmt, hprev⟩ := ih h'
      refine ⟨i + 1, by simpa using Nat.succ_lt_succ hi, by simpa using hget, hmt, ?_⟩
      intro j hj
      cases j with
      | zero => exact hm
      | succ k => exact hprev k (by omega)

theorem matchTemplateLoop_of_exists (lts : List String) (ts : List Pattern.DrainCluster)
    (h : ∃ t ∈ ts, Pattern.matchTokens lts (Pattern.tokenize t.pattern) = true) :
    (Pattern.matchTemplateLoop lts ts).2 = true := by
  by_contra hf
  obtain ⟨t, ht, hm⟩ := h
  exact (matchTemplateLoop_false lts ts (by simpa using hf)).2 t ht hm

/-- C5: `MatchTemplate` returns `(t, true)` exactly for the first
template `t` in input order whose tokenised pattern (whitespace-
separated after replacing the extra delimiters `|`, `=`, `,`) has the
same token count as the line's and agrees at every position either
literally or via the wildcard `<*>`; it returns the zero value and
`false` when no template qualifies.  In particular, with the templates
`[{id1, "INFO server started on port <*>"}, {id2, "ERROR connection <*>
to <*>"}]`, the line `"INFO server started on port 8080"` matches `id1`
with `true`, and `"DEBUG something else"` returns `false`. -/
theorem matchTemplate_first_qualifying_or_false :
    (∀ (line : String) (ts : List Pattern.DrainCluster),
      (∀ t, Pattern.MatchTemplate line ts = (t, true) →
        ∃ i, ∃ hi : i < ts.length,
          ts.get ⟨i, hi⟩ = t ∧ matchesTemplateSpec line t ∧
          ∀ j (hj : j < i), ¬ matchesTemplateSpec line (ts.get ⟨j, Nat.lt_trans hj hi⟩)) ∧
      ((Pattern.MatchTemplate line ts).2 = false →
        (Pattern.MatchTemplate line ts).1 = Pattern.zeroCluster ∧
          ∀ t ∈ ts, ¬ matchesTemplateSpec line t) ∧
      ((∃ t ∈ ts, matchesTemplateSpec line t) → (Pattern.MatchTemplate line ts).2 = true)) ∧
    Pattern.MatchTemplate "INFO server started on port 8080"
      [⟨"id1", "INFO server started on port <*>", 2⟩, ⟨"id2", "ERROR connection <*> to <*>", 2⟩] =
      (⟨"id1", "INFO server started on port <*>", 2⟩, true) ∧
    (Pattern.MatchTemplate "DEBUG something else"
      [⟨"id1", "INFO server started on port <*>", 2⟩, ⟨"id2", "ERROR connection <*> to <*>", 2⟩]).2 =
      false := by
  refine ⟨?_, by decide, by decide⟩
  intro line ts
  refine ⟨?_, ?_, ?_⟩
  · intro t h
    obtain ⟨i, hi, hget, hm, hprev⟩ := matchTemplateLoop_true _ _ _ h
    refine ⟨i, hi, hget, (matchTokens_spec_iff line t).mp hm, ?_⟩
    intro j hj hspec
    exact hprev j hj ((matchTokens_spec_iff line _).mpr hspec)
  · intro h
    obtain ⟨he, hall⟩ := matchTemplateLoop_false (Pattern.tokenize line) ts h
    refine ⟨by simpa [Pattern.MatchTemplate] using congrArg Prod.fst he, ?_⟩
    intro t ht hspec
    exact hall t ht ((matchTokens_spec_iff line t).mpr hspec)
  · intro ⟨t, ht, hspec⟩
    exact matchTemplateLoop_of_exists _ _ ⟨t, ht, (matchTokens_spec_iff line t).mpr hspec⟩

/-- C2 counterexample: an entry whose content matches a template (here
the `count == 1` cluster `"hello <*>"`, which round 2 deliberately
includes in the candidate list) but whose template was never labeled —
the semantic-id map is empty — is persisted with EMPTY labels, although
the claim says a matched entry's labels contain
`{pattern → semantic_id, pattern_id → uuid}` of the matched template. -/
theorem storeLogsWithLabels_matched_entry_with_empty_labels :
    (Pattern.MatchTemplate "hello world" [⟨"uuid-1", "hello <*>", 1⟩]).2 = true ∧
    (Pipeline.storeLogsWithLabels [⟨1, 1, "hello world"⟩] [⟨"uuid-1", "hello <*>", 1⟩] []).map
      (fun e => e.labels) = [[]] := by
  decide

/-- C2 (amended): in round 2 every merged entry is persisted with
`line_number = start_line`, `end_line_number = end_line` and its raw
content; the matcher runs against the given (full) template list, and
the stored labels object is exactly `{pattern → semantic_id,
pattern_id → uuid}` of the matched template WHEN the entry matched a
template whose UUID the semantic-id map knows; when no template matched
— and also when the matched template carries no semantic id — the
labels object is empty. -/
theorem storeLogsWithLabels_labels (mergedLines : List Multiline.MergedLine)
    (templates : List Pattern.DrainCluster) (semanticIDMap : List (String × String)) :
    (Pipeline.storeLogsWithLabels mergedLines templates semanticIDMap).length =
      mergedLines.length ∧
    ∀ i (hi : i < mergedLines.length)
      (hi' : i < (Pipeline.storeLogsWithLabels mergedLines templates semanticIDMap).length),
      (((Pipeline.storeLogsWithLabels mergedLines templates semanticIDMap).get
          ⟨i, hi'⟩).lineNumber = (mergedLines.get ⟨i, hi⟩).startLine) ∧
      (((Pipeline.storeLogsWithLabels mergedLines templates semanticIDMap).get
          ⟨i, hi'⟩).endLineNumber = (mergedLines.get ⟨i, hi⟩).endLine) ∧
      (((Pipeline.storeLogsWithLabels mergedLines templates semanticIDMap).get
          ⟨i, hi'⟩).raw = (mergedLines.get ⟨i, hi⟩).content) ∧
      (∀ tpl, Pattern.MatchTemplate (mergedLines.get ⟨i, hi⟩).content templates = (tpl, true) →
        (∀ sid, (semanticIDMap.find? (fun kv => kv.1 == tpl.id)).map (fun kv => kv.2) = some sid →
          ((Pipeline.storeLogsWithLabels mergedLines templates semanticIDMap).get
            ⟨i, hi'⟩).labels = [("pattern", sid), ("pattern_id", tpl.id)]) ∧
        (semanticIDMap.find? (fun kv => kv.1 == tpl.id) = none →
          ((Pipeline.storeLogsWithLabels mergedLines templates semanticIDMap).get
            ⟨i, hi'⟩).labels = [])) ∧
      ((Pattern.MatchTemplate (mergedLines.get ⟨i, hi⟩).content templates).2 = false →
        ((Pipeline.storeLogsWithLabels mergedLines templates semanticIDMap).get
          ⟨i, hi'⟩).labels = []) := by
  refine ⟨by simp [Pipeline.storeLogsWithLabels], ?_⟩
  intro i hi hi'
  have he : (Pipeline.storeLogsWithLabels mergedLines templates semanticIDMap).get ⟨i, hi'⟩ =
      Pipeline.entryForLine templates semanticIDMap (mergedLines.get ⟨i, hi⟩) := by
    simp [Pipeline.storeLogsWithLabels]
  rw [he]
  set ml := mergedLines.get ⟨i, hi⟩ with hml
  rcases hr : Pattern.MatchTemplate ml.content templates with ⟨tpl0, b⟩
  cases b with
  | false =>
    have hbase : Pipeline.entryForLine templates semanticIDMap ml =
        ⟨0, ml.startLine, ml.endLine, 0, ml.content, []⟩ := by
      simp [Pipeline.entryForLine, hr]
    rw [hbase]
    refine ⟨rfl, rfl, rfl, ?_, fun _ => rfl⟩
    intro tpl htpl
    simp at htpl
  | true =>
    rcases hf : semanticIDMap.find? (fun kv => kv.1 == tpl0.id) with _ | ⟨k, v⟩
    · have hbase : Pipeline.entryForLine templates semanticIDMap ml =
          ⟨0, ml.startLine, ml.endLine, 0, ml.content, []⟩ := by
        simp [Pipeline.entryForLine, hr, hf]
      rw [hbase]
      refine ⟨rfl, rfl, rfl, ?_, ?_⟩
      · intro tpl htpl
        obtain rfl : tpl0 = tpl := by simpa using htpl
        refine ⟨?_, fun _ => rfl⟩
        intro sid hsid
        rw [hf] at hsid
        simp at hsid
      · intro hfalse
        simp at hfalse
    · have hlab : Pipeline.entryForLine templates semanticIDMap ml =
          ⟨0, ml.startLine, ml.endLine, 0, ml.content,
            [("pattern", v), ("pattern_id", tpl0.id)]⟩ := by
        simp [Pipeline.entryForLine, hr, hf]
      rw [hlab]
      refine ⟨rfl, rfl, rfl, ?_, ?_⟩
      · intro tpl htpl
        obtain rfl : tpl0 = tpl := by simpa using htpl
        constructor
        · intro sid hsid
          rw [hf] at hsid
          obtain rfl : v = sid := by simpa using hsid
          rfl
        · intro hnone
          rw [hf] at hnone
          simp at hnone
      · intro hfalse
        simp at hfalse

/-- C1 counterexample: `PatternSummaries` joins on
`json_extract_string(labels, '$.pattern') = patterns.semantic_id`, not
on `labels.pattern_id = patterns.pattern_id` as the claim states.  In a
state with one entry labeled `{pattern: "a", pattern_id: "X"}` and one
pattern row `(pattern_id "X", semantic_id "b")`, the query returns no
summary (the semantic ids differ), while the claim's join on
`pattern_id` would return one group of count 1. -/
theorem patternSummaries_join_counterexample :
    Store.patternSummaries
      ⟨[⟨1, 1, 1, 0, "raw", [("pattern", "a"), ("pattern_id", "X")]⟩],
       [⟨"X", some "drain", some "p", some "b", some "d"⟩]⟩ = [] ∧
    Store.patternSummariesSpecJoin
      ⟨[⟨1, 1, 1, 0, "raw", [("pattern", "a"), ("pattern_id", "X")]⟩],
       [⟨"X", some "drain", some "p", some "b", some "d"⟩]⟩ =
      [⟨"X", "p", 1, "drain", "b", "d"⟩] := by
  decide

/-- C1 (amended): for every store state, `pattern_summaries` joins
`log_entries` to `patterns` on `labels.pattern == patterns.semantic_id`
(both sides non-null), groups by pattern, emits `{pattern_id, pattern,
count, pattern_type, semantic_id, description}` with the nullable
columns coalesced to `""` and `count` the number of joined entries
(patterns with no matching entry are dropped by the inner join), and
orders the result by count descending. -/
theorem patternSummaries_groups_and_order (st : Store.StoreState) :
    (∀ (le : Store.LogRow) (p : Store.PatternRow), Store.summariesJoin le p = true ↔
      ∃ v, Store.jsonExtractPattern le.labels = some v ∧ p.semanticId = some v) ∧
    (∀ s, s ∈ Store.patternSummaries st ↔
      ∃ p ∈ st.patterns,
        0 < (st.logEntries.filter fun le => Store.summariesJoin le p).length ∧
        s = Store.summaryOfPattern p
              ((st.logEntries.filter fun le => Store.summariesJoin le p).length)) ∧
    List.Pairwise (fun a b => b.count ≤ a.count) (Store.patternSummaries st) := by
  refine ⟨?_, ?_, ?_⟩
  · intro le p
    rcases hj : Store.jsonExtractPattern le.labels with _ | a <;>
      rcases hs : p.semanticId with _ | b
    · simp [Store.summariesJoin, hj, hs]
    · simp [Store.summariesJoin, hj, hs]
    · simp [Store.summariesJoin, hj, hs]
    · simp only [Store.summariesJoin, hj, hs, beq_iff_eq, Option.some.injEq]
      constructor
      · rintro rfl
        exact ⟨a, rfl, rfl⟩
      · rintro ⟨v, h1, h2⟩
        exact h1.trans h2.symm
  · intro s
    unfold Store.patternSummaries Store.sortByCountDesc
    rw [(List.perm_insertionSort _ _).mem_iff, List.mem_filterMap]
    constructor
    · rintro ⟨p, hp, hf⟩
      by_cases hc : (st.logEntries.filter fun le => Store.summariesJoin le p).length = 0
      · simp [hc] at hf
      · simp only [hc, if_false] at hf
        obtain rfl := Option.some.inj hf
        exact ⟨p, hp, Nat.pos_of_ne_zero hc, rfl⟩
    · rintro ⟨p, hp, hpos, rfl⟩
      refine ⟨p, hp, ?_⟩
      simp [Nat.ne_of_gt hpos]
  · exact List.sorted_insertionSort _ _

theorem parseValue_backtick (fuel : Nat) (cs : List Char) :
    Semantic.parseValue fuel ('`' :: cs) = none := by
  cases fuel with
  | zero => rfl
  | succ n =>
    simp [Semantic.parseValue, Semantic.parseNumber, Semantic.takeDigits]

/-- C8 counterexample: `parseResponse` succeeds on responses that are
not JSON arrays of `{pattern_id, semantic_id, description}` objects.
`encoding/json` unmarshals the JSON value `null` into a nil slice
without error, and ignores unknown object fields, so the response body
`"null"` succeeds with zero labels and `[{"other":1}]` succeeds with
one zero-valued label — neither returns the decode error the claim
requires. -/
theorem parseResponse_succeeds_on_non_array :
    Semantic.parseResponse "null" = Except.ok [] ∧
    Semantic.parseResponse "[\x7b\"other\":1\x7d]" = Except.ok [⟨"", "", ""⟩] := by
  constructor
  · rfl
  · rfl

set_option maxRecDepth 40000 in
/-- C8 (amended): `Label` succeeds only when the trimmed response
content parses directly as JSON and unmarshals into the label slice —
a JSON array of objects (unknown fields ignored, the three known
fields strings when present), or JSON `null`, which yields an empty
list — and otherwise returns a decode error.  No attempt is made to
strip markdown fences: any response whose trimmed content still begins
with a backtick is rejected with a decode error.  In particular the
example array body parses to the corresponding one-label list, and the
same body wrapped in triple-backtick fences is rejected with a decode
error. -/
theorem parseResponse_direct_json_only (content : String) :
    ((GoStrings.trimString content).data.head? = some '`' →
      Semantic.parseResponse content = Except.error "JSON decode") ∧
    (∀ ls, Semantic.parseResponse content = Except.ok ls →
      ∃ j, Semantic.parseJson (GoStrings.trimString content) = some j ∧
        Semantic.decodeLabels j = some ls) ∧
    Semantic.parseResponse
      "[\x7b\"pattern_id\":\"a1b2c3d4-e5f6-7890-abcd-ef1234567890\",\"semantic_id\":\"server-startup\",\"description\":\"Server process starting\"\x7d]" =
      Except.ok [⟨"a1b2c3d4-e5f6-7890-abcd-ef1234567890", "server-startup", "Server process starting"⟩] ∧
    Semantic.parseResponse
      ("```json\n[\x7b\"pattern_id\":\"a1b2c3d4-e5f6-7890-abcd-ef1234567890\",\"semantic_id\":\"server-startup\",\"description\":\"Server process starting\"\x7d]\n```") =
      Except.error "JSON decode" := by
  refine ⟨?_, ?_, by rfl, by rfl⟩
  · intro hhead
    rcases hdata : (GoStrings.trimString content).data with _ | ⟨c, t⟩
    · rw [hdata] at hhead
      simp at hhead
    · rw [hdata] at hhead
      obtain rfl : c = '`' := by simpa using hhead
      have hskip : Semantic.skipWs ('`' :: t) = '`' :: t := by
        simp [Semantic.skipWs, Semantic.isJsonWs]
      have hpj : Semantic.parseJson (GoStrings.trimString content) = none := by
        simp [Semantic.parseJson, hdata, hskip, parseValue_backtick]
      simp [Semantic.parseResponse, hpj]
  · intro ls hls
    rcases hp : Semantic.parseJson (GoStrings.trimString content) with _ | j
    · simp [Semantic.parseResponse, hp] at hls
    · rcases hd : Semantic.decodeLabels j with _ | ls2
      · simp [Semantic.parseResponse, hp, hd] at hls
      · have h2 : ls2 = ls := by
          simpa [Semantic.parseResponse, hp, hd] using hls
        cases h2
        exact ⟨j, rfl, hd⟩

theorem chanTail_eq_append (maxB : Nat) (s3 : Multiline.MergeState) (n : Nat) (l : String) :
    Multiline.chanTail maxB s3 n l =
      Multiline.mergeAppendPhase (Multiline.guardFlush maxB s3 l) n l := by
  by_cases he : s3.buf.isEmpty
  · simp [Multiline.chanTail, Multiline.guardFlush, Multiline.mergeAppendPhase, he]
  · by_cases hg : maxB < s3.bufBytes + l.utf8ByteSize + 1
    · simp [Multiline.chanTail, Multiline.guardFlush, Multiline.mergeAppendPhase,
        Multiline.flushState, he, hg]
    · simp [Multiline.chanTail, Multiline.guardFlush, Multiline.mergeAppendPhase, he, hg]

theorem mergeStep_chan_eq_slice (isNew : String → Bool) (maxB : Nat)
    (s : Multiline.MergeState) (n : Nat) (l : String) :
    Multiline.mergeStepChan isNew maxB s n l = Multiline.mergeStepSlice isNew maxB s n l := by
  have h1 : Multiline.mergeStepChan isNew maxB s n l =
      Multiline.chanTail maxB (Multiline.mergePrefix isNew s l) n l := rfl
  rw [h1, chanTail_eq_append]
  rfl

theorem mergeRunChan_eq_slice (isNew : String → Bool) (maxB : Nat) (ε : Type)
    (ls : List String) : ∀ (n : Nat) (s : Multiline.MergeState),
    Multiline.mergeRunChan isNew maxB (okLinesFrom ε n ls) s =
      ((Multiline.flushState (Multiline.mergeRunSlice isNew maxB ls n s)).result).map
        Multiline.MergeResult.value := by
  induction ls with
  | nil => intro n s; rfl
  | cons l rest ih =>
    intro n s
    show Multiline.mergeRunChan isNew maxB (Except.ok ⟨n, l⟩ :: okLinesFrom ε (n + 1) rest) s = _
    rw [show Multiline.mergeRunChan isNew maxB (Except.ok ⟨n, l⟩ :: okLinesFrom ε (n + 1) rest) s =
        Multiline.mergeRunChan isNew maxB (okLinesFrom ε (n + 1) rest)
          (Multiline.mergeStepChan isNew maxB s n l) from rfl]
    rw [mergeStep_chan_eq_slice, ih]
    rfl

/-- C9: for every finite error-free input, the streaming `Merge` (fed
the lines as `ok` read results numbered from 1, as the source reader
produces them) and `MergeSlice` produce identical results: the same
merged entries — equal start line, end line and content — in the same
order, and nothing else on the stream. -/
theorem merge_stream_eq_mergeSlice (ε : Type) (isNew : String → Bool) (maxB : Nat)
    (lines : List String) :
    Multiline.Merge isNew maxB (okLinesFrom ε 1 lines) =
      (Multiline.MergeSlice isNew maxB lines).map Multiline.MergeResult.value := by
  cases lines with
  | nil => rfl
  | cons l rest =>
    show Multiline.mergeRunChan isNew maxB (okLinesFrom ε 1 (l :: rest)) Multiline.initState = _
    rw [mergeRunChan_eq_slice]
    rfl

theorem covers_bound {a b : Nat} : ∀ {es : List Multiline.MergedLine},
    covers a es b → a ≤ b + 1 := by
  intro es
  induction es generalizing a with
  | nil =>
    intro h
    have hx : b + 1 = a := h
    omega
  | cons e rest ih =>
    rintro ⟨h1, h2, h3⟩
    have := ih h3
    omega

theorem covers_append_single {x c a b : Nat} {t : String}
    {r : List Multiline.MergedLine} (hr : covers x r c) (hc : c + 1 = a) (hab : a ≤ b) :
    covers x (r ++ [⟨a, b, t⟩]) b := by
  induction r generalizing x with
  | nil =>
    have hx : c + 1 = x := hr
    obtain rfl : x = a := by omega
    exact ⟨rfl, hab, rfl⟩
  | cons e rest ih =>
    obtain ⟨h1, h2, h3⟩ := hr
    exact ⟨h1, h2, ih h3⟩

theorem covers_start_le_end {a b : Nat} : ∀ {es : List Multiline.MergedLine},
    covers a es b → ∀ e ∈ es, e.startLine ≤ e.endLine := by
  intro es
  induction es generalizing a with
  | nil => intro _ e he; simp at he
  | cons u rest ih =>
    rintro ⟨h1, h2, h3⟩ e he
    rcases List.mem_cons.mp he with rfl | hmem
    · omega
    · exact ih h3 e hmem

theorem covers_chain {a b : Nat} : ∀ {es : List Multiline.MergedLine},
    covers a es b → ∀ i (h : i + 1 < es.length),
      (es.get ⟨i + 1, h⟩).startLine = (es.get ⟨i, Nat.lt_of_succ_lt h⟩).endLine + 1 := by
  intro es
  induction es generalizing a with
  | nil => intro _ i h; simp at h
  | cons u rest ih =>
    rintro ⟨h1, h2, h3⟩ i h
    cases i with
    | zero =>
      cases rest with
      | nil => simp at h
      | cons v rest2 =>
        obtain ⟨hv, _, _⟩ := h3
        simpa using hv
    | succ j =>
      have hj : j + 1 < rest.length := by simpa using h
      simpa using ih h3 j hj

theorem covers_sum {a b : Nat} : ∀ {es : List Multiline.MergedLine},
    covers a es b → ((es.map fun e => e.endLine + 1 - e.startLine).sum) = b + 1 - a := by
  intro es
  induction es generalizing a with
  | nil =>
    intro h
    have hx : b + 1 = a := h
    simp
    omega
  | cons u rest ih =>
    rintro ⟨h1, h2, h3⟩
    have hsum := ih h3
    have hb := covers_bound h3
    simp only [List.map_cons, List.sum_cons, hsum, h1]
    omega

theorem utf8ByteSize_data (s : String) : s.utf8ByteSize = String.utf8Len s.data := by
  cases s
  simp

theorem utf8ByteSize_append (a b : String) :
    (a ++ b).utf8ByteSize = a.utf8ByteSize + b.utf8ByteSize := by
  rw [utf8ByteSize_data, utf8ByteSize_data, utf8ByteSize_data,
    show (a ++ b).data = a.data ++ b.data from rfl, String.utf8Len_append]

theorem join_append_single (sep x : String) : ∀ (buf : List String), buf ≠ [] →
    Multiline.join sep (buf ++ [x]) = Multiline.join sep buf ++ sep ++ x := by
  intro buf
  induction buf with
  | nil => intro h; simp at h
  | cons a rest ih =>
    intro _
    cases rest with
    | nil => rfl
    | cons c r2 =>
      show Multiline.join sep (a :: ((c :: r2) ++ [x])) = _
      rw [show Multiline.join sep (a :: ((c :: r2) ++ [x])) =
          a ++ sep ++ Multiline.join sep ((c :: r2) ++ [x]) from rfl]
      rw [ih (by simp)]
      rw [show Multiline.join sep (a :: c :: r2) = a ++ sep ++ Multiline.join sep (c :: r2) from rfl]
      simp [String.append_assoc]

theorem flushState_buf (s : Multiline.MergeState) : (Multiline.flushState s).buf = [] := by
  by_cases h : s.buf.isEmpty
  · simp only [Multiline.flushState, h, if_true]
    simpa using h
  · simp [Multiline.flushState, h]

theorem flush_pres (maxB m : Nat) (s : Multiline.MergeState)
    (h : mergeInv maxB m s) : mergeInv maxB m (Multiline.flushState s) := by
  by_cases hb : s.buf.isEmpty
  · have : Multiline.flushState s = s := by simp [Multiline.flushState, hb]
    rw [this]; exact h
  · have hne : s.buf ≠ [] := by simpa using hb
    obtain ⟨h1, h2, h3⟩ := h
    obtain ⟨hs1, hs2, hs3, hcov, hlen, hbytes, hbound⟩ := h2 hne
    have hfl : Multiline.flushState s =
        { s with result := s.result ++ [⟨s.startLine, s.endLine, Multiline.join "\n" s.buf⟩],
                 buf := [], bufBytes := 0 } := by
      simp [Multiline.flushState, hb]
    rw [hfl]
    refine ⟨?_, ?_, ?_⟩
    · intro _
      show covers 1 (s.result ++ [⟨s.startLine, s.endLine, Multiline.join "\n" s.buf⟩]) m
      have hstep := @covers_append_single 1 (s.startLine - 1) s.startLine s.endLine
        (Multiline.join "\n" s.buf) s.result hcov (by omega) (by omega)
      rw [show s.endLine = m from hs3] at hstep
      rw [show s.endLine = m from hs3]
      exact hstep
    · intro hfalse
      simp at hfalse
    · intro e he
      rcases List.mem_append.mp he with hm | hm
      · exact h3 e hm
      · have he2 : e = ⟨s.startLine, s.endLine, Multiline.join "\n" s.buf⟩ := by simpa using hm
        subst he2
        rcases Nat.lt_or_ge s.buf.length 2 with hlt | hge
        · left
          have hone : s.buf.length = 1 := by
            have : s.buf.length ≠ 0 := by simpa using hne
            omega
          show s.startLine = s.endLine
          omega
        · right
          show (Multiline.join "\n" s.buf).utf8ByteSize ≤ maxB
          rw [← hbytes]
          exact hbound hge

theorem prefix_pres (isNew : String → Bool) (maxB m : Nat) (line : String)
    (s0 : Multiline.MergeState) (h : mergeInv maxB m s0) :
    mergeInv maxB m (Multiline.mergePrefix isNew s0 line) := by
  simp only [Multiline.mergePrefix]
  split_ifs <;>
    first
      | exact h
      | exact flush_pres maxB m _ h
      | exact flush_pres maxB m _ (flush_pres maxB m _ h)

theorem guard_pres (maxB m : Nat) (line : String) (s3 : Multiline.MergeState)
    (h : mergeInv maxB m s3) : mergeInv maxB m (Multiline.guardFlush maxB s3 line) := by
  simp only [Multiline.guardFlush]
  split_ifs <;> first | exact h | exact flush_pres maxB m _ h

theorem guard_bound (maxB : Nat) (line : String) (s3 : Multiline.MergeState) :
    (Multiline.guardFlush maxB s3 line).buf ≠ [] →
      (Multiline.guardFlush maxB s3 line).bufBytes + line.utf8ByteSize + 1 ≤ maxB := by
  by_cases hbe : s3.buf.isEmpty
  · have hr : Multiline.guardFlush maxB s3 line = s3 := by
      simp [Multiline.guardFlush, hbe]
    rw [hr]
    intro hne
    exact absurd (List.isEmpty_iff.mp hbe) hne
  · by_cases hlt : maxB < s3.bufBytes + line.utf8ByteSize + 1
    · have hr : Multiline.guardFlush maxB s3 line = Multiline.flushState s3 := by
        simp [Multiline.guardFlush, hbe, hlt]
      rw [hr]
      intro habs
      exact absurd (flushState_buf s3) habs
    · have hr : Multiline.guardFlush maxB s3 line = s3 := by
        simp [Multiline.guardFlush, hbe, hlt]
      rw [hr]
      intro _
      omega

theorem append_inv (maxB m : Nat) (line : String) (s4 : Multiline.MergeState)
    (h : mergeInv maxB m s4)
    (hbound : s4.buf ≠ [] → s4.bufBytes + line.utf8ByteSize + 1 ≤ maxB) :
    mergeInv maxB (m + 1) (Multiline.mergeAppendPhase s4 (m + 1) line) := by
  obtain ⟨h1, h2, h3⟩ := h
  by_cases hb : s4.buf.isEmpty
  · have hbn : s4.buf = [] := List.isEmpty_iff.mp hb
    have happ : Multiline.mergeAppendPhase s4 (m + 1) line =
        { s4 with startLine := m + 1, bufBytes := line.utf8ByteSize,
                  endLine := m + 1, buf := s4.buf ++ [line] } := by
      simp [Multiline.mergeAppendPhase, hb]
    rw [happ]
    refine ⟨fun habs => absurd habs (by simp), fun _ => ?_, fun e he => h3 e he⟩
    refine ⟨show (1 : Nat) ≤ m + 1 by omega, show m + 1 ≤ m + 1 from Nat.le_refl _,
      rfl, ?_, ?_, ?_, ?_⟩
    · show covers 1 s4.result (m + 1 - 1)
      simpa using h1 hbn
    · show (s4.buf ++ [line]).length = m + 1 + 1 - (m + 1)
      rw [hbn]
      simp
    · show line.utf8ByteSize = (Multiline.join "\n" (s4.buf ++ [line])).utf8ByteSize
      rw [hbn]
      rfl
    · intro h2le
      have h2le2 : 2 ≤ (s4.buf ++ [line]).length := h2le
      rw [hbn] at h2le2
      simp at h2le2
  · have hbn : s4.buf ≠ [] := by
      intro habs
      rw [habs] at hb
      simp at hb
    obtain ⟨hs1, hs2, hs3, hcov, hlen, hbytes, hbd⟩ := h2 hbn
    have happ : Multiline.mergeAppendPhase s4 (m + 1) line =
        { s4 with bufBytes := s4.bufBytes + line.utf8ByteSize + 1,
                  endLine := m + 1, buf := s4.buf ++ [line] } := by
      simp [Multiline.mergeAppendPhase, hb]
    rw [happ]
    refine ⟨fun habs => absurd habs (by simp), fun _ => ?_, fun e he => h3 e he⟩
    refine ⟨hs1, show s4.startLine ≤ m + 1 by omega, rfl, hcov, ?_, ?_, ?_⟩
    · show (s4.buf ++ [line]).length = m + 1 + 1 - s4.startLine
      simp only [List.length_append, List.length_cons, List.length_nil]
      omega
    · show s4.bufBytes + line.utf8ByteSize + 1 =
        (Multiline.join "\n" (s4.buf ++ [line])).utf8ByteSize
      rw [join_append_single "\n" line s4.buf hbn, utf8ByteSize_append, utf8ByteSize_append]
      have hnl : ("\n" : String).utf8ByteSize = 1 := rfl
      omega
    · intro _
      exact hbound hbn

theorem stepSlice_inv (isNew : String → Bool) (maxB m : Nat) (line : String)
    (s0 : Multiline.MergeState) (h : mergeInv maxB m s0) :
    mergeInv maxB (m + 1) (Multiline.mergeStepSlice isNew maxB s0 (m + 1) line) := by
  have hpre := prefix_pres isNew maxB m line s0 h
  have hgrd := guard_pres maxB m line _ hpre
  have hbnd := guard_bound maxB line (Multiline.mergePrefix isNew s0 line)
  exact append_inv maxB m line _ hgrd hbnd

theorem init_inv (maxB : Nat) : mergeInv maxB 0 Multiline.initState :=
  ⟨fun _ => rfl, fun habs => absurd rfl habs,
   fun e he => absurd he (by simp [Multiline.initState])⟩

theorem runSlice_inv (isNew : String → Bool) (maxB : Nat) :
    ∀ (ls : List String) (m : Nat) (s : Multiline.MergeState), mergeInv maxB m s →
      mergeInv maxB (m + ls.length) (Multiline.mergeRunSlice isNew maxB ls (m + 1) s) := by
  intro ls
  induction ls with
  | nil =>
    intro m s h
    simpa [Multiline.mergeRunSlice] using h
  | cons l rest ih =>
    intro m s h
    have hstep := stepSlice_inv isNew maxB m l s h
    have hrun := ih (m + 1) _ hstep
    have hun : Multiline.mergeRunSlice isNew maxB (l :: rest) (m + 1) s =
        Multiline.mergeRunSlice isNew maxB rest (m + 2)
          (Multiline.mergeStepSlice isNew maxB s (m + 1) l) := rfl
    rw [hun]
    have harith : m + (l :: rest).length = (m + 1) + rest.length := by
      simp
      omega
    rw [harith]
    exact hrun

theorem mergeSlice_inv_final (isNew : String → Bool) (maxB : Nat) (lines : List String) :
    covers 1 (Multiline.MergeSlice isNew maxB lines) lines.length ∧
    ∀ e ∈ Multiline.MergeSlice isNew maxB lines,
      e.startLine = e.endLine ∨ e.content.utf8ByteSize ≤ maxB := by
  cases lines with
  | nil =>
    constructor
    · show (0 : Nat) + 1 = 1
      rfl
    · intro e he
      simp [Multiline.MergeSlice] at he
  | cons l rest =>
    have hrun := runSlice_inv isNew maxB (l :: rest) 0 _ (init_inv maxB)
    have hfin := flush_pres maxB _ _ hrun
    have hms : Multiline.MergeSlice isNew maxB (l :: rest) =
        (Multiline.flushState
          (Multiline.mergeRunSlice isNew maxB (l :: rest) 1 Multiline.initState)).result := by
      simp [Multiline.MergeSlice]
    obtain ⟨f1, -, f3⟩ := hfin
    have hbuf := flushState_buf
      (Multiline.mergeRunSlice isNew maxB (l :: rest) 1 Multiline.initState)
    constructor
    · rw [hms]
      simpa using f1 hbuf
    · rw [hms]
      exact f3

/-- C3: for every non-empty list of input lines, the entries returned
by `MergeSlice` partition the physical lines: the first entry starts at
line 1, each entry has `start_line ≤ end_line`, consecutive entries
satisfy `entry[i].end_line < entry[i+1].start_line` with no gap (the
next entry starts exactly at the previous `end_line + 1`), and the
line-coverage sum `Σ (end_line − start_line + 1)` equals the physical
line count. -/
theorem mergeSlice_partitions (isNew : String → Bool) (maxB : Nat) (lines : List String)
    (hne : lines ≠ []) :
    ((Multiline.MergeSlice isNew maxB lines).head?.map (fun e => e.startLine) = some 1) ∧
    (∀ e ∈ Multiline.MergeSlice isNew maxB lines, e.startLine ≤ e.endLine) ∧
    (∀ i (h : i + 1 < (Multiline.MergeSlice isNew maxB lines).length),
      ((Multiline.MergeSlice isNew maxB lines).get ⟨i, Nat.lt_of_succ_lt h⟩).endLine <
        ((Multiline.MergeSlice isNew maxB lines).get ⟨i + 1, h⟩).startLine ∧
      ((Multiline.MergeSlice isNew maxB lines).get ⟨i + 1, h⟩).startLine =
        ((Multiline.MergeSlice isNew maxB lines).get ⟨i, Nat.lt_of_succ_lt h⟩).endLine + 1) ∧
    (((Multiline.MergeSlice isNew maxB lines).map fun e => e.endLine + 1 - e.startLine).sum =
      lines.length) := by
  obtain ⟨hcov, -⟩ := mergeSlice_inv_final isNew maxB lines
  have hlen1 : 1 ≤ lines.length := by
    cases lines
    · exact absurd rfl hne
    · simp
  refine ⟨?_, covers_start_le_end hcov, ?_, ?_⟩
  · cases hes : Multiline.MergeSlice isNew maxB lines with
    | nil =>
      rw [hes] at hcov
      have habs : lines.length + 1 = 1 := hcov
      omega
    | cons e es2 =>
      rw [hes] at hcov
      obtain ⟨hstart, -, -⟩ := hcov
      simp [hstart]
  · intro i h
    have hchain := covers_chain hcov i h
    exact ⟨by omega, hchain⟩
  · have hsum := covers_sum hcov
    rw [hsum]
    omega

/-- C3 witness: the partition property evaluated on a concrete 2-line
input. -/
theorem mergeSlice_partitions_witness :
    ((Multiline.MergeSlice (fun _ => false) 65536 ["a", "b"]).head?.map
      (fun e => e.startLine) = some 1) ∧
    (∀ e ∈ Multiline.MergeSlice (fun _ => false) 65536 ["a", "b"],
      e.startLine ≤ e.endLine) ∧
    (∀ i (h : i + 1 < (Multiline.MergeSlice (fun _ => false) 65536 ["a", "b"]).length),
      ((Multiline.MergeSlice (fun _ => false) 65536 ["a", "b"]).get
        ⟨i, Nat.lt_of_succ_lt h⟩).endLine <
        ((Multiline.MergeSlice (fun _ => false) 65536 ["a", "b"]).get ⟨i + 1, h⟩).startLine ∧
      ((Multiline.MergeSlice (fun _ => false) 65536 ["a", "b"]).get ⟨i + 1, h⟩).startLine =
        ((Multiline.MergeSlice (fun _ => false) 65536 ["a", "b"]).get
          ⟨i, Nat.lt_of_succ_lt h⟩).endLine + 1) ∧
    (((Multiline.MergeSlice (fun _ => false) 65536 ["a", "b"]).map
      fun e => e.endLine + 1 - e.startLine).sum = ["a", "b"].length) :=
  mergeSlice_partitions (fun _ => false) 65536 ["a", "b"] (by decide)

theorem flushState_result_pfx (s : Multiline.MergeState) :
    s.result <+: (Multiline.flushState s).result := by
  by_cases hb : s.buf.isEmpty
  · simp [Multiline.flushState, hb]
  · simp [Multiline.flushState, hb]

theorem mergePrefix_result_pfx (isNew : String → Bool) (s : Multiline.MergeState)
    (line : String) : s.result <+: (Multiline.mergePrefix isNew s line).result := by
  simp only [Multiline.mergePrefix]
  split_ifs <;>
    first
      | exact List.prefix_refl _
      | exact flushState_result_pfx s
      | exact flushState_result_pfx { s with everDetected := true }
      | exact (flushState_result_pfx s).trans
          (flushState_result_pfx (Multiline.flushState s))
      | exact (flushState_result_pfx { s with everDetected := true }).trans
          (flushState_result_pfx (Multiline.flushState { s with everDetected := true }))

theorem guardFlush_result_pfx (maxB : Nat) (s : Multiline.MergeState) (line : String) :
    s.result <+: (Multiline.guardFlush maxB s line).result := by
  simp only [Multiline.guardFlush]
  split_ifs <;> first | exact List.prefix_refl _ | exact flushState_result_pfx _

theorem appendPhase_result (s : Multiline.MergeState) (n : Nat) (line : String) :
    (Multiline.mergeAppendPhase s n line).result = s.result := by
  simp only [Multiline.mergeAppendPhase]
  split_ifs <;> rfl

theorem stepSlice_result_pfx (isNew : String → Bool) (maxB : Nat)
    (s : Multiline.MergeState) (n : Nat) (line : String) :
    s.result <+: (Multiline.mergeStepSlice isNew maxB s n line).result := by
  rw [Multiline.mergeStepSlice, appendPhase_result, Multiline.mergeFlushPhase]
  exact List.IsPrefix.trans (mergePrefix_result_pfx isNew s line)
    (guardFlush_result_pfx maxB _ line)

theorem runSlice_result_pfx (isNew : String → Bool) (maxB : Nat) :
    ∀ (ls : List String) (n : Nat) (s : Multiline.MergeState),
      s.result <+: (Multiline.mergeRunSlice isNew maxB ls n s).result := by
  intro ls
  induction ls with
  | nil => intro n s; exact List.prefix_refl _
  | cons l rest ih =>
    intro n s
    exact List.IsPrefix.trans (stepSlice_result_pfx isNew maxB s n l) (ih (n + 1) _)

theorem flushPhase_buf_oversized (isNew : String → Bool) (maxB : Nat)
    (s0 : Multiline.MergeState) (line : String) (hline : maxB < line.utf8ByteSize) :
    (Multiline.mergeFlushPhase isNew maxB s0 line).buf = [] := by
  rw [Multiline.mergeFlushPhase]
  by_cases hbe : (Multiline.mergePrefix isNew s0 line).buf.isEmpty
  · have hr : Multiline.guardFlush maxB (Multiline.mergePrefix isNew s0 line) line =
        Multiline.mergePrefix isNew s0 line := by
      simp [Multiline.guardFlush, hbe]
    rw [hr]
    exact List.isEmpty_iff.mp hbe
  · have hlt : maxB <
        (Multiline.mergePrefix isNew s0 line).bufBytes + line.utf8ByteSize + 1 := by
      omega
    have hr : Multiline.guardFlush maxB (Multiline.mergePrefix isNew s0 line) line =
        Multiline.flushState (Multiline.mergePrefix isNew s0 line) := by
      simp [Multiline.guardFlush, hbe, hlt]
    rw [hr]
    exact flushState_buf _

theorem step_oversized (isNew : String → Bool) (maxB : Nat) (m : Nat) (line : String)
    (s0 : Multiline.MergeState) (hline : maxB < line.utf8ByteSize) :
    (Multiline.mergeStepSlice isNew maxB s0 m line).buf = [line] ∧
    (Multiline.mergeStepSlice isNew maxB s0 m line).startLine = m ∧
    (Multiline.mergeStepSlice isNew maxB s0 m line).endLine = m ∧
    (Multiline.mergeStepSlice isNew maxB s0 m line).bufBytes = line.utf8ByteSize ∧
    s0.result <+: (Multiline.mergeStepSlice isNew maxB s0 m line).result := by
  have hb4 := flushPhase_buf_oversized isNew maxB s0 line hline
  have hbe : (Multiline.mergeFlushPhase isNew maxB s0 line).buf.isEmpty := by
    rw [hb4]; rfl
  have happ : Multiline.mergeStepSlice isNew maxB s0 m line =
      { Multiline.mergeFlushPhase isNew maxB s0 line with
        startLine := m, bufBytes := line.utf8ByteSize, endLine := m,
        buf := (Multiline.mergeFlushPhase isNew maxB s0 line).buf ++ [line] } := by
    rw [Multiline.mergeStepSlice]
    simp [Multiline.mergeAppendPhase, hbe]
  rw [happ]
  refine ⟨by rw [hb4]; rfl, rfl, rfl, rfl, ?_⟩
  show s0.result <+: (Multiline.mergeFlushPhase isNew maxB s0 line).result
  rw [Multiline.mergeFlushPhase]
  exact List.IsPrefix.trans (mergePrefix_result_pfx isNew s0 line)
    (guardFlush_result_pfx maxB _ line)

theorem flushPhase_mem_oversized (isNew : String → Bool) (maxB : Nat) (line l2 : String)
    (k : Nat) (s : Multiline.MergeState)
    (hbuf : s.buf = [l2]) (hst : s.startLine = k) (hend : s.endLine = k)
    (hbb : maxB < s.bufBytes) :
    (⟨k, k, l2⟩ : Multiline.MergedLine) ∈ (Multiline.mergeFlushPhase isNew maxB s line).result := by
  simp only [Multiline.mergeFlushPhase, Multiline.mergePrefix, Multiline.guardFlush]
  split_ifs <;>
    first
      | (simp_all [Multiline.flushState, Multiline.join]; done)
      | (simp_all [Multiline.flushState, Multiline.join]; omega)

theorem runSlice_oversized (isNew : String → Bool) (maxB : Nat) :
    ∀ (ls : List String) (m : Nat) (s : Multiline.MergeState) (i : Nat) (hi : i < ls.length),
      maxB < (ls.get ⟨i, hi⟩).utf8ByteSize →
      (⟨m + i + 1, m + i + 1, ls.get ⟨i, hi⟩⟩ : Multiline.MergedLine) ∈
        (Multiline.flushState (Multiline.mergeRunSlice isNew maxB ls (m + 1) s)).result := by
  intro ls
  induction ls with
  | nil => intro m s i hi; simp at hi
  | cons l rest ih =>
    intro m s i hi hover
    cases i with
    | zero =>
      have hover0 : maxB < l.utf8ByteSize := by simpa using hover
      obtain ⟨hbufT, hstT, hendT, hbbT, -⟩ :=
        step_oversized isNew maxB (m + 1) l s hover0
      have hrun : Multiline.mergeRunSlice isNew maxB (l :: rest) (m + 1) s =
          Multiline.mergeRunSlice isNew maxB rest (m + 1 + 1)
            (Multiline.mergeStepSlice isNew maxB s (m + 1) l) := rfl
      rw [hrun]
      show (⟨m + 1, m + 1, l⟩ : Multiline.MergedLine) ∈ _
      cases rest with
      | nil =>
        show (⟨m + 1, m + 1, l⟩ : Multiline.MergedLine) ∈
          (Multiline.flushState (Multiline.mergeStepSlice isNew maxB s (m + 1) l)).result
        have hfe : Multiline.flushState (Multiline.mergeStepSlice isNew maxB s (m + 1) l) =
            { Multiline.mergeStepSlice isNew maxB s (m + 1) l with
              result := (Multiline.mergeStepSlice isNew maxB s (m + 1) l).result ++
                [⟨(Multiline.mergeStepSlice isNew maxB s (m + 1) l).startLine,
                  (Multiline.mergeStepSlice isNew maxB s (m + 1) l).endLine,
                  Multiline.join "\n" (Multiline.mergeStepSlice isNew maxB s (m + 1) l).buf⟩],
              buf := [], bufBytes := 0 } := by
          simp [Multiline.flushState, hbufT]
        rw [hfe]
        simp [hbufT, hstT, hendT, Multiline.join]
      | cons l2 rest2 =>
        have hbb : maxB < (Multiline.mergeStepSlice isNew maxB s (m + 1) l).bufBytes := by
          rw [hbbT]
          exact hover0
        have hmem : (⟨m + 1, m + 1, l⟩ : Multiline.MergedLine) ∈
            (Multiline.mergeFlushPhase isNew maxB
              (Multiline.mergeStepSlice isNew maxB s (m + 1) l) l2).result :=
          flushPhase_mem_oversized isNew maxB l2 l (m + 1) _ hbufT hstT hendT hbb
        have hmem2 : (⟨m + 1, m + 1, l⟩ : Multiline.MergedLine) ∈
            (Multiline.mergeStepSlice isNew maxB
              (Multiline.mergeStepSlice isNew maxB s (m + 1) l) (m + 1 + 1) l2).result := by
          rw [Multiline.mergeStepSlice, appendPhase_result]
          exact hmem
        have hrun2 : Multiline.mergeRunSlice isNew maxB (l2 :: rest2) (m + 1 + 1)
            (Multiline.mergeStepSlice isNew maxB s (m + 1) l) =
            Multiline.mergeRunSlice isNew maxB rest2 (m + 1 + 1 + 1)
              (Multiline.mergeStepSlice isNew maxB
                (Multiline.mergeStepSlice isNew maxB s (m + 1) l) (m + 1 + 1) l2) := rfl
        rw [hrun2]
        have hpre := runSlice_result_pfx isNew maxB rest2 (m + 1 + 1 + 1)
          (Multiline.mergeStepSlice isNew maxB
            (Multiline.mergeStepSlice isNew maxB s (m + 1) l) (m + 1 + 1) l2)
        have hpre2 := flushState_result_pfx
          (Multiline.mergeRunSlice isNew maxB rest2 (m + 1 + 1 + 1)
            (Multiline.mergeStepSlice isNew maxB
              (Multiline.mergeStepSlice isNew maxB s (m + 1) l) (m + 1 + 1) l2))
        exact (hpre.trans hpre2).subset hmem2
    | succ j =>
      have hj : j < rest.length := by simpa using hi
      have hget : (l :: rest).get ⟨j + 1, hi⟩ = rest.get ⟨j, hj⟩ := rfl
      have hrun : Multiline.mergeRunSlice isNew maxB (l :: rest) (m + 1) s =
          Multiline.mergeRunSlice isNew maxB rest (m + 1 + 1)
            (Multiline.mergeStepSlice isNew maxB s (m + 1) l) := rfl
      rw [hrun, hget]
      have hres := ih (m + 1) (Multiline.mergeStepSlice isNew maxB s (m + 1) l) j hj
        (by rw [← hget]; exact hover)
      have harith : m + (j + 1) + 1 = m + 1 + j + 1 := by omega
      rw [harith]
      exact hres

/-- C4: every entry the merger emits is a single physical line or has
content byte length within `max_entry_bytes`; and a single physical
line longer than `max_entry_bytes` is emitted as its own entry (range
`i+1 .. i+1`, content the line itself) regardless. -/
theorem mergeSlice_entry_byte_bound (isNew : String → Bool) (maxB : Nat)
    (lines : List String) :
    (∀ e ∈ Multiline.MergeSlice isNew maxB lines,
      e.startLine = e.endLine ∨ e.content.utf8ByteSize ≤ maxB) ∧
    (∀ i (hi : i < lines.length), maxB < (lines.get ⟨i, hi⟩).utf8ByteSize →
      (⟨i + 1, i + 1, lines.get ⟨i, hi⟩⟩ : Multiline.MergedLine) ∈
        Multiline.MergeSlice isNew maxB lines) := by
  constructor
  · exact (mergeSlice_inv_final isNew maxB lines).2
  · intro i hi hover
    cases lines with
    | nil => simp at hi
    | cons l rest =>
      have h := runSlice_oversized isNew maxB (l :: rest) 0 Multiline.initState i hi hover
      have hms : Multiline.MergeSlice isNew maxB (l :: rest) =
          (Multiline.flushState
            (Multiline.mergeRunSlice isNew maxB (l :: rest) 1 Multiline.initState)).result := by
        simp [Multiline.MergeSlice]
      rw [hms]
      simpa using h

/-- C6 counterexample: with a first-line regex configured, `IsNewEntry`
returns the bare regex match BEFORE the empty-line check, so an empty
line does NOT always return `false`: a regex that matches the empty
string (e.g. `.*` or `^`; a compiled regex is modelled by its
`MatchString` predicate, here constantly true) makes `IsNewEntry`
return `true` on the empty line. -/
theorem isNewEntry_empty_line_regex_true :
    Multiline.IsNewEntry
      (Multiline.NewDetector { firstLineRegex := some (fun _ => true) }) [] = true := rfl

/-- C6 (amended): for every detector configuration, if a first-line
regex is configured `is_new_entry` equals the regex match (also on
empty lines); otherwise it tokenises the first `max_scan_bytes` bytes
of the line and returns `true` exactly when the static token graph's
match probability strictly exceeds the threshold, with empty lines
always `false` in this path. -/
theorem isNewEntry_spec (cfg : Multiline.DetectorConfig) (line : List Nat) :
    (∀ re, cfg.firstLineRegex = some re →
      Multiline.IsNewEntry (Multiline.NewDetector cfg) line = re line) ∧
    (cfg.firstLineRegex = none → line = [] →
      Multiline.IsNewEntry (Multiline.NewDetector cfg) line = false) ∧
    (cfg.firstLineRegex = none → line ≠ [] →
      (Multiline.IsNewEntry (Multiline.NewDetector cfg) line = true ↔
        (Multiline.NewDetector cfg).threshold <
          (Multiline.matchProbability Multiline.staticTokenGraph
            (Multiline.tokenize
              (line.take (Multiline.NewDetector cfg).maxScanBytes))).probability)) := by
  have hre : (Multiline.NewDetector cfg).firstLineRegex = cfg.firstLineRegex := rfl
  refine ⟨?_, ?_, ?_⟩
  · intro re hcfg
    rw [Multiline.IsNewEntry, hre, hcfg]
  · intro hcfg hempty
    rw [Multiline.IsNewEntry, hre, hcfg]
    subst hempty
    simp
  · intro hcfg hne
    rw [Multiline.IsNewEntry, hre, hcfg]
    have hscan : 1 ≤ (Multiline.NewDetector cfg).maxScanBytes := by
      show 1 ≤ (if cfg.maxScanBytes = 0 then 60 else cfg.maxScanBytes)
      split_ifs with h0
      · omega
      · omega
    have hlen : 1 ≤ line.length := by
      cases line
      · exact absurd rfl hne
      · simp
    have hmin : min line.length (Multiline.NewDetector cfg).maxScanBytes ≠ 0 := by
      have := Nat.le_min.mpr ⟨hlen, hscan⟩
      omega
    have htake : line.take (min line.length (Multiline.NewDetector cfg).maxScanBytes) =
        line.take (Multiline.NewDetector cfg).maxScanBytes := by
      rcases Nat.le_total line.length (Multiline.NewDetector cfg).maxScanBytes with hle | hle
      · rw [Nat.min_eq_left hle, List.take_length, List.take_of_length_le hle]
      · rw [Nat.min_eq_right hle]
    simp only [hmin, if_false]
    rw [htake]
    constructor
    · intro h
      exact of_decide_eq_true h
    · intro h
      exact decide_eq_true h

theorem windowSum_single (cs : List Int) (i : Nat) (h : i < cs.length) :
    windowSum cs i (i + 1) = cs.getD i 0 := by
  unfold windowSum
  have h1 : i + 1 - i = 1 := by omega
  have h2 : (1 : Nat) = 0 + 1 := rfl
  rw [h1, h2, List.take_succ, List.getElem?_drop]
  simp only [List.take_zero, List.nil_append, Nat.add_zero]
  rw [List.getD_eq_getElem?_getD]
  cases hx : cs[i]? <;> simp [hx]

theorem windowSum_succ (cs : List Int) (a i : Nat) (ha : a ≤ i) (h : i < cs.length) :
    windowSum cs a (i + 1) = windowSum cs a i + cs.getD i 0 := by
  unfold windowSum
  have h1 : i + 1 - a = (i - a) + 1 := by omega
  rw [h1, List.take_succ, List.sum_append, List.getElem?_drop]
  have h2 : a + (i - a) = i := by omega
  rw [h2]
  congr 1
  rw [List.getD_eq_getElem?_getD]
  cases hx : cs[i]? <;> simp [hx]

theorem kadaneLoop_spec (cs rest : List Int) :
    ∀ (i : Nat) (maxSum currentSum : Int) (start endI tempStart : Nat),
      rest = cs.drop i →
      i ≤ cs.length →
      tempStart < i →
      currentSum = windowSum cs tempStart i →
      (∀ s, s < i → windowSum cs s i ≤ currentSum) →
      start ≤ endI →
      endI < i →
      maxSum = windowSum cs start (endI + 1) →
      (∀ s e, s < e → e ≤ i → windowSum cs s e ≤ maxSum) →
      (Multiline.kadaneLoop rest i maxSum currentSum start endI tempStart).2.1 ≤
          (Multiline.kadaneLoop rest i maxSum currentSum start endI tempStart).2.2 ∧
        (Multiline.kadaneLoop rest i maxSum currentSum start endI tempStart).2.2 + 1 ≤
          cs.length ∧
        (Multiline.kadaneLoop rest i maxSum currentSum start endI tempStart).1 =
          windowSum cs (Multiline.kadaneLoop rest i maxSum currentSum start endI tempStart).2.1
            ((Multiline.kadaneLoop rest i maxSum currentSum start endI tempStart).2.2 + 1) ∧
        ∀ s e, s < e → e ≤ cs.length →
          windowSum cs s e ≤
            (Multiline.kadaneLoop rest i maxSum currentSum start endI tempStart).1 := by
  induction rest with
  | nil =>
    intro i maxSum currentSum start endI tempStart hrest hile hts hcur hcurmax hse hei hmax hall
    have hlen : cs.length ≤ i := by
      by_contra hcon
      push_neg at hcon
      have hne : cs.drop i ≠ [] := by
        have hdl : (cs.drop i).length = cs.length - i := List.length_drop i cs
        intro hnil
        rw [hnil] at hdl
        simp at hdl
        omega
      exact hne hrest.symm
    simp only [Multiline.kadaneLoop]
    refine ⟨hse, by omega, hmax, ?_⟩
    intro s e h1 h2
    exact hall s e h1 (by omega)
  | cons v rest' ih =>
    intro i maxSum currentSum start endI tempStart hrest hile hts hcur hcurmax hse hei hmax hall
    have hi : i < cs.length := by
      by_contra hcon
      push_neg at hcon
      rw [List.drop_eq_nil_of_le hcon] at hrest
      exact absurd hrest (by simp)
    have hv : v = cs.getD i 0 := by
      have h0 : (cs.drop i)[0]? = some v := by
        rw [← hrest]
        simp
      rw [List.getElem?_drop] at h0
      have h1 : cs[i]? = some v := h0
      rw [List.getD_eq_getElem?_getD, h1]
      rfl
    have hrest2 : rest' = cs.drop (i + 1) := by
      have ht := congrArg List.tail hrest
      simpa [List.tail_drop] using ht
    have hcur_new : currentSum + v = windowSum cs tempStart (i + 1) := by
      rw [windowSum_succ cs tempStart i (by omega) hi, ← hcur, ← hv]
    have hsingle : windowSum cs i (i + 1) = v := by
      rw [windowSum_single cs i hi, ← hv]
    have hstep_bound : ∀ s, s < i → windowSum cs s (i + 1) = windowSum cs s i + v := by
      intro s hs
      rw [windowSum_succ cs s i (by omega) hi, ← hv]
    by_cases hc : currentSum + v < v
    · have hneg : currentSum < 0 := by omega
      have hnewmax : ∀ s, s < i + 1 → windowSum cs s (i + 1) ≤ v := by
        intro s hs
        rcases Nat.lt_or_ge s i with h | h
        · rw [hstep_bound s h]
          have := hcurmax s h
          omega
        · have hsi : s = i := by omega
          rw [hsi, hsingle]
      by_cases hm : maxSum < v
      · have hstep : Multiline.kadaneLoop (v :: rest') i maxSum currentSum start endI tempStart =
            Multiline.kadaneLoop rest' (i + 1) v v i i i := by
          simp [Multiline.kadaneLoop, hc, hm]
        rw [hstep]
        apply ih (i + 1) v v i i i hrest2 (by omega) (by omega) hsingle.symm hnewmax
          (Nat.le_refl i) (by omega) hsingle.symm
        intro s e h1 h2
        rcases Nat.lt_or_ge e (i + 1) with h3 | h3
        · have h4 := hall s e h1 (by omega)
          omega
        · have he : e = i + 1 := by omega
          rw [he]
          exact hnewmax s (by omega)
      · have hstep : Multiline.kadaneLoop (v :: rest') i maxSum currentSum start endI tempStart =
            Multiline.kadaneLoop rest' (i + 1) maxSum v start endI i := by
          simp [Multiline.kadaneLoop, hc, hm]
        rw [hstep]
        apply ih (i + 1) maxSum v start endI i hrest2 (by omega) (by omega) hsingle.symm hnewmax
          hse (by omega) hmax
        intro s e h1 h2
        rcases Nat.lt_or_ge e (i + 1) with h3 | h3
        · exact hall s e h1 (by omega)
        · have he : e = i + 1 := by omega
          rw [he]
          have h4 := hnewmax s (by omega)
          omega
    · have hpos : 0 ≤ currentSum := by omega
      have hnewmax : ∀ s, s < i + 1 → windowSum cs s (i + 1) ≤ currentSum + v := by
        intro s hs
        rcases Nat.lt_or_ge s i with h | h
        · rw [hstep_bound s h]
          have := hcurmax s h
          omega
        · have hsi : s = i := by omega
          rw [hsi, hsingle]
          omega
      by_cases hm : maxSum < currentSum + v
      · have hstep : Multiline.kadaneLoop (v :: rest') i maxSum currentSum start endI tempStart =
            Multiline.kadaneLoop rest' (i + 1) (currentSum + v) (currentSum + v) tempStart i
              tempStart := by
          simp [Multiline.kadaneLoop, hc, hm]
        rw [hstep]
        apply ih (i + 1) (currentSum + v) (currentSum + v) tempStart i tempStart hrest2
          (by omega) (by omega) hcur_new hnewmax (by omega) (by omega) hcur_new
        intro s e h1 h2
        rcases Nat.lt_or_ge e (i + 1) with h3 | h3
        · have h4 := hall s e h1 (by omega)
          omega
        · have he : e = i + 1 := by omega
          rw [he]
          exact hnewmax s (by omega)
      · have hstep : Multiline.kadaneLoop (v :: rest') i maxSum currentSum start endI tempStart =
            Multiline.kadaneLoop rest' (i + 1) maxSum (currentSum + v) start endI tempStart := by
          simp [Multiline.kadaneLoop, hc, hm]
        rw [hstep]
        apply ih (i + 1) maxSum (currentSum + v) start endI tempStart hrest2 (by omega)
          (by omega) hcur_new hnewmax hse (by omega) hmax
        intro s e h1 h2
        rcases Nat.lt_or_ge e (i + 1) with h3 | h3
        · exact hall s e h1 (by omega)
        · have he : e = i + 1 := by omega
          rw [he]
          have h4 := hnewmax s (by omega)
          omega

theorem maxSubsequence_spec (cs : List Int) (hne : cs ≠ []) :
    ∃ (maxSum : Int) (start endI : Nat),
      Multiline.maxSubsequence cs =
        ((maxSum : ℚ) / (((endI + 1) - start : Nat) : ℚ), start, endI + 1) ∧
      start ≤ endI ∧ endI + 1 ≤ cs.length ∧
      maxSum = windowSum cs start (endI + 1) ∧
      ∀ s e, s < e → e ≤ cs.length → windowSum cs s e ≤ maxSum := by
  match cs, hne with
  | v0 :: rest, _ =>
    have hsingle0 : windowSum (v0 :: rest) 0 1 = v0 := by
      rw [windowSum_single (v0 :: rest) 0 (by simp)]
      rfl
    have hspec := kadaneLoop_spec (v0 :: rest) rest 1 v0 v0 0 0 0
      rfl
      (by simp)
      (by omega)
      hsingle0.symm
      (by
        intro s hs
        have hs0 : s = 0 := by omega
        rw [hs0]
        exact le_of_eq hsingle0)
      (Nat.le_refl 0)
      (by omega)
      hsingle0.symm
      (by
        intro s e h1 h2
        have hs0 : s = 0 := by omega
        have he1 : e = 1 := by omega
        rw [hs0, he1]
        exact le_of_eq hsingle0)
    obtain ⟨ha, hb, hhc, hd⟩ := hspec
    exact ⟨(Multiline.kadaneLoop rest 1 v0 v0 0 0 0).1,
      (Multiline.kadaneLoop rest 1 v0 v0 0 0 0).2.1,
      (Multiline.kadaneLoop rest 1 v0 v0 0 0 0).2.2, rfl, ha, hb, hhc, hd⟩

theorem matchProbability_eq (g : Multiline.TokenGraph) (ts : List Multiline.Token)
    (h : ¬ ts.length < g.minimumTokenLength) :
    Multiline.matchProbability g ts =
      (if (Multiline.maxSubsequence (Multiline.credits g ts)).2.2 -
            (Multiline.maxSubsequence (Multiline.credits g ts)).2.1 < g.minimumTokenLength
        then ⟨0, 0, 0⟩
        else ⟨(Multiline.maxSubsequence (Multiline.credits g ts)).1,
              (Multiline.maxSubsequence (Multiline.credits g ts)).2.1,
              (Multiline.maxSubsequence (Multiline.credits g ts)).2.2⟩) := by
  simp only [Multiline.matchProbability]
  rw [if_neg h]

theorem credits_pm_one (g : Multiline.TokenGraph) (ts : List Multiline.Token) :
    ∀ x ∈ Multiline.credits g ts, x = 1 ∨ x = -1 := by
  intro x hx
  unfold Multiline.credits at hx
  rw [List.mem_map] at hx
  obtain ⟨i, _, hieq⟩ := hx
  rw [← hieq]
  by_cases hT : Multiline.hasTransition g (ts.getD i 0) (ts.getD (i + 1) 0) = true
  · left
    rw [if_pos hT]
  · right
    rw [if_neg hT]

theorem intSum_pm_one_bounds (l : List Int) (h : ∀ x ∈ l, x = 1 ∨ x = -1) :
    -(l.length : Int) ≤ l.sum ∧ l.sum ≤ (l.length : Int) := by
  induction l with
  | nil => simp
  | cons a t ih =>
    have ha := h a (List.mem_cons_self a t)
    obtain ⟨ih1, ih2⟩ := ih (fun x hx => h x (List.mem_cons_of_mem a hx))
    simp only [List.sum_cons, List.length_cons]
    push_cast
    rcases ha with h1 | h1 <;> rw [h1] <;> constructor <;> omega

theorem windowSum_bounds (cs : List Int) (h : ∀ x ∈ cs, x = 1 ∨ x = -1) (s e : Nat)
    (hse : s ≤ e) (hel : e ≤ cs.length) :
    -((e - s : Nat) : Int) ≤ windowSum cs s e ∧ windowSum cs s e ≤ ((e - s : Nat) : Int) := by
  have hmem : ∀ x ∈ (cs.drop s).take (e - s), x = 1 ∨ x = -1 :=
    fun x hx => h x (List.mem_of_mem_drop (List.mem_of_mem_take hx))
  have hlen : ((cs.drop s).take (e - s)).length = e - s := by
    rw [List.length_take, List.length_drop]
    omega
  have hb := intSum_pm_one_bounds ((cs.drop s).take (e - s)) hmem
  rw [hlen] at hb
  exact hb

/-- C7 counterexample: against the graph trained on the transitions
`tC1 → tC1` and `tD1 → tC1`, the 11-token input `c7Tokens` yields the
credit list `[1, 1, 1, 1, 1, -1, 1, 1, 1, 1]`.  `matchProbability`
selects the whole window `[0, 10)` — sum `8`, average `8/10` — yet the
window `[6, 7)` has average `1 > 8/10` (stated below by
cross-multiplication with the positive window lengths): the sweep
maximises the window sum, not the average claimed by the spec. -/
theorem matchProbability_not_max_average :
    (Multiline.matchProbability c7Graph c7Tokens).start = 0 ∧
    (Multiline.matchProbability c7Graph c7Tokens).stop = 10 ∧
    (Multiline.matchProbability c7Graph c7Tokens).probability =
      (windowSum (Multiline.credits c7Graph c7Tokens) 0 10 : ℚ) / ((10 : Nat) : ℚ) ∧
    7 ≤ (Multiline.credits c7Graph c7Tokens).length ∧
    windowSum (Multiline.credits c7Graph c7Tokens) 0 10 * ((7 : Int) - 6) <
      windowSum (Multiline.credits c7Graph c7Tokens) 6 7 * ((10 : Int) - 0) :=
  ⟨by decide, by decide, rfl, by decide, by decide⟩

/-- C7 (amended): for every token graph with `minimumTokenLength ≥ 2`
(the detector uses 8) and every token sequence, `matchProbability`
returns zero on the two guard paths, and otherwise selects a window of
the ±1 credit list whose SUM is maximal over all non-empty windows
(the standard Kadane objective — not the maximum average), returning
`probability = windowSum / (stop - start)` over that window. -/
theorem matchProbability_kadane_spec (g : Multiline.TokenGraph) (ts : List Multiline.Token)
    (hmin : 2 ≤ g.minimumTokenLength) : kadaneSelectionProp g ts := by
  unfold kadaneSelectionProp
  constructor
  · intro hlt
    simp [Multiline.matchProbability, hlt]
  · intro hge
    have hlt : ¬ ts.length < g.minimumTokenLength := by omega
    have hclen : (Multiline.credits g ts).length = ts.length - 1 := by
      simp [Multiline.credits]
    have hne : Multiline.credits g ts ≠ [] := by
      intro hnil
      rw [hnil] at hclen
      simp at hclen
      omega
    obtain ⟨maxSum, start, endI, heq, h1, h2, h3, h4⟩ :=
      maxSubsequence_spec (Multiline.credits g ts) hne
    have hms1 : (Multiline.maxSubsequence (Multiline.credits g ts)).2.1 = start := by
      rw [heq]
    have hms2 : (Multiline.maxSubsequence (Multiline.credits g ts)).2.2 = endI + 1 := by
      rw [heq]
    have hmsp : (Multiline.maxSubsequence (Multiline.credits g ts)).1 =
        (maxSum : ℚ) / (((endI + 1) - start : Nat) : ℚ) := by
      rw [heq]
    constructor
    · intro hshort
      rw [matchProbability_eq g ts hlt, if_pos hshort]
    · intro hlong
      have hng : ¬ ((Multiline.maxSubsequence (Multiline.credits g ts)).2.2 -
          (Multiline.maxSubsequence (Multiline.credits g ts)).2.1 < g.minimumTokenLength) := by
        omega
      rw [matchProbability_eq g ts hlt, if_neg hng]
      simp only [hms1, hms2, hmsp]
      refine ⟨by omega, h2, ?_, ?_⟩
      · rw [← h3]
      · intro s e hs he
        rw [← h3]
        exact h4 s e hs he

/-- Concrete instantiation of `matchProbability_kadane_spec` at the
two-transition graph and the 11-token input. -/
theorem matchProbability_kadane_spec_witness :
    2 ≤ c7Graph.minimumTokenLength ∧ kadaneSelectionProp c7Graph c7Tokens :=
  ⟨by decide, matchProbability_kadane_spec c7Graph c7Tokens (by decide)⟩

/-- C10: `matchProbability` (a total function of the graph and the
token list) never divides by zero: whenever the input passes the
minimum-length check the sweep returns `stop > start`, and since every
credit is `±1` the selected window sum is at most the window length in
absolute value, so the returned probability always lies in `[-1, 1]`. -/
theorem matchProbability_bounds (g : Multiline.TokenGraph) (ts : List Multiline.Token)
    (hmin : 2 ≤ g.minimumTokenLength) : matchProbabilityBoundsProp g ts := by
  unfold matchProbabilityBoundsProp
  by_cases hlt : ts.length < g.minimumTokenLength
  · have h0 : Multiline.matchProbability g ts = ⟨0, 0, 0⟩ := by
      simp [Multiline.matchProbability, hlt]
    refine ⟨fun hge => absurd hge (by omega), ?_, ?_⟩
    · rw [h0]
      show (-1 : ℚ) ≤ 0
      norm_num
    · rw [h0]
      show (0 : ℚ) ≤ 1
      norm_num
  · have hge : g.minimumTokenLength ≤ ts.length := by omega
    have hclen : (Multiline.credits g ts).length = ts.length - 1 := by
      simp [Multiline.credits]
    have hne : Multiline.credits g ts ≠ [] := by
      intro hnil
      rw [hnil] at hclen
      simp at hclen
      omega
    obtain ⟨maxSum, start, endI, heq, h1, h2, h3, h4⟩ :=
      maxSubsequence_spec (Multiline.credits g ts) hne
    have hms1 : (Multiline.maxSubsequence (Multiline.credits g ts)).2.1 = start := by
      rw [heq]
    have hms2 : (Multiline.maxSubsequence (Multiline.credits g ts)).2.2 = endI + 1 := by
      rw [heq]
    have hmsp : (Multiline.maxSubsequence (Multiline.credits g ts)).1 =
        (maxSum : ℚ) / (((endI + 1) - start : Nat) : ℚ) := by
      rw [heq]
    have hbounds : -1 ≤ (Multiline.matchProbability g ts).probability ∧
        (Multiline.matchProbability g ts).probability ≤ 1 := by
      rw [matchProbability_eq g ts hlt]
      by_cases hshort : (Multiline.maxSubsequence (Multiline.credits g ts)).2.2 -
          (Multiline.maxSubsequence (Multiline.credits g ts)).2.1 < g.minimumTokenLength
      · rw [if_pos hshort]
        constructor
        · show (-1 : ℚ) ≤ 0
          norm_num
        · show (0 : ℚ) ≤ 1
          norm_num
      · rw [if_neg hshort]
        show -1 ≤ (Multiline.maxSubsequence (Multiline.credits g ts)).1 ∧
          (Multiline.maxSubsequence (Multiline.credits g ts)).1 ≤ 1
        rw [hmsp]
        have hd0 : (0 : ℚ) < (((endI + 1) - start : Nat) : ℚ) := by
          have hdn : 0 < (endI + 1) - start := by omega
          exact_mod_cast hdn
        have hwb := windowSum_bounds (Multiline.credits g ts) (credits_pm_one g ts)
          start (endI + 1) (by omega) h2
        rw [← h3] at hwb
        constructor
        · refine (le_div_iff hd0).mpr ?_
          rw [neg_one_mul]
          exact_mod_cast hwb.1
        · refine (div_le_one hd0).mpr ?_
          exact_mod_cast hwb.2
    refine ⟨fun _ => ?_, hbounds.1, hbounds.2⟩
    rw [hms1, hms2]
    omega

/-- Concrete instantiation of `matchProbability_bounds` at the
two-transition graph and the 11-token input. -/
theorem matchProbability_bounds_witness :
    2 ≤ c7Graph.minimumTokenLength ∧ matchProbabilityBoundsProp c7Graph c7Tokens :=
  ⟨by decide, matchProbability_bounds c7Graph c7Tokens (by decide)⟩
